import Mathlib

/-!
# Verification of the go-blockdevice GPT engine and probe orchestrator

Shallow embedding of the core of the `go-blockdevice` library:

* byte-buffer primitives mirroring Go byte slices and `ReaderAt`/`WriterAt`
  devices (a device is a total byte map `Nat → Nat`);
* CRC32 (IEEE, reflected polynomial 0xEDB88320) as used by `hash/crc32`;
* the mixed-endian GUID/UUID swap from `internal/gptutil`;
* the GPT on-disk header/entry codec (`internal/gptstructs`), the table
  engine (`gpt` package: `New`, `Read`, `Write`, `AllocatePartition`,
  `DeletePartition`, `GrowPartition`, kernel synchronization);
* the probe orchestrator (`blkid` package: magic matching, the prober
  chain loop).

Machine integers of the source (uint32/uint64) are modelled as `Nat`;
theorems carry explicit bounds where the distinction could matter, and
comments mark the places where Go wrap-around semantics would diverge.
-/

deriving instance DecidableEq for Except

namespace BlockDev

/-- A device's contents: a total map from byte offset to byte value.
Mirrors an `io.ReaderAt`/`io.WriterAt` pair over a block device; reads in
the Go source that cannot fail in this model (`ReadFullAt` on an in-range
buffer) are modelled as total. -/
def readAt (dev : Nat → Nat) (off len : Nat) : List Nat :=
  (List.range len).map fun i => dev (off + i)

/-- `WriteAt`: overlay `data` on the device at byte offset `off`. -/
def writeAt (dev : Nat → Nat) (off : Nat) (data : List Nat) : Nat → Nat :=
  fun i => if off ≤ i ∧ i < off + data.length then data.getD (i - off) 0 else dev i

/-- Go slice read `s[off : off+len]`. -/
def getBytes (s : List Nat) (off len : Nat) : List Nat :=
  (s.drop off).take len

/-- Go `copy(s[off:off+v.length], v)` for an in-range write: replace the
bytes of `s` at `off` by `v`.  All uses in this file have
`off + v.length ≤ s.length`. -/
def putBytesAt (s : List Nat) (off : Nat) (v : List Nat) : List Nat :=
  s.take off ++ v ++ s.drop (off + v.length)

/-- `binary.LittleEndian.PutUint32`: the four little-endian bytes of `v`. -/
def le32Bytes (v : Nat) : List Nat :=
  [v % 256, v / 2 ^ 8 % 256, v / 2 ^ 16 % 256, v / 2 ^ 24 % 256]

/-- `binary.LittleEndian.PutUint64`: the eight little-endian bytes of `v`. -/
def le64Bytes (v : Nat) : List Nat :=
  [v % 256, v / 2 ^ 8 % 256, v / 2 ^ 16 % 256, v / 2 ^ 24 % 256,
   v / 2 ^ 32 % 256, v / 2 ^ 40 % 256, v / 2 ^ 48 % 256, v / 2 ^ 56 % 256]

/-- `binary.LittleEndian.Uint32(s[off:off+4])`. -/
def le32Get (s : List Nat) (off : Nat) : Nat :=
  s.getD off 0 + 2 ^ 8 * s.getD (off + 1) 0 + 2 ^ 16 * s.getD (off + 2) 0 +
    2 ^ 24 * s.getD (off + 3) 0

/-- `binary.LittleEndian.Uint64(s[off:off+8])`. -/
def le64Get (s : List Nat) (off : Nat) : Nat :=
  s.getD off 0 + 2 ^ 8 * s.getD (off + 1) 0 + 2 ^ 16 * s.getD (off + 2) 0 +
    2 ^ 24 * s.getD (off + 3) 0 + 2 ^ 32 * s.getD (off + 4) 0 +
    2 ^ 40 * s.getD (off + 5) 0 + 2 ^ 48 * s.getD (off + 6) 0 +
    2 ^ 56 * s.getD (off + 7) 0

/-- The reflected IEEE CRC32 polynomial used by Go's `crc32.IEEETable`. -/
def crc32Poly : Nat := 0xEDB88320

/-- One bit step of the reflected CRC32: shift right, conditionally xor the
polynomial. -/
def crc32Step (c : Nat) : Nat :=
  if c % 2 = 1 then (c / 2) ^^^ crc32Poly else c / 2

/-- Fold one input byte into the CRC state (eight bit steps). -/
def crc32Byte (c b : Nat) : Nat :=
  crc32Step^[8] (c ^^^ b % 256)

/-- Fold the CRC state over the data bytes.  (The branch on `c' = 0` is
the identity on both sides; it forces the accumulator to a literal so
that kernel reduction of concrete checksums runs in bounded depth.) -/
def crc32Update : Nat → List Nat → Nat
  | c, [] => c
  | c, b :: rest =>
    let c' := crc32Byte c b
    if c' = 0 then crc32Update c' rest else crc32Update c' rest

/-- `crc32.ChecksumIEEE`: init 0xFFFFFFFF, fold all bytes, final inversion. -/
def crc32 (data : List Nat) : Nat :=
  crc32Update 0xFFFFFFFF data ^^^ 0xFFFFFFFF

/-- `gptutil.GUIDToUUID`: mixed-endian swap — byte-reverse `[0..4)`,
`[4..6)`, `[6..8)`; bytes `[8..16)` unchanged. -/
def guidToUUID (g : List Nat) : List Nat :=
  [g.getD 3 0, g.getD 2 0, g.getD 1 0, g.getD 0 0,
   g.getD 5 0, g.getD 4 0,
   g.getD 7 0, g.getD 6 0,
   g.getD 8 0, g.getD 9 0] ++ (g.drop 10).take 6

/-- `gptutil.UUIDToGUID`: same byte permutation (the swap is an involution). -/
def uuidToGUID (u : List Nat) : List Nat :=
  [u.getD 3 0, u.getD 2 0, u.getD 1 0, u.getD 0 0,
   u.getD 5 0, u.getD 4 0,
   u.getD 7 0, u.getD 6 0,
   u.getD 8 0, u.getD 9 0] ++ (u.drop 10).take 6

/-! ## Probe engine (`blkid` package)

`magic.Magic`, `chain.Chain` (`MaxMagicSize`, `MagicMatches`, declaration
order = trial order) and `Info.probe` (the per-range probe driver).  A
prober's `Probe(reader)` call is abstracted by its outcome for the probed
range: `.error e` models an I/O error, `.ok none` the "not me" answer,
`.ok (some r)` a successful identification. -/

/-- `magic.Magic`: a byte pattern at a fixed offset. -/
structure Magic where
  value : List Nat
  offset : Nat
deriving DecidableEq

/-- `Magic.BlockSize`: bytes needed from the start of the range to test
this magic. -/
def Magic.blockSize (m : Magic) : Nat := m.offset + m.value.length

/-- `Magic.Matches`: the pattern is byte-equal at the offset and the buffer
is long enough. -/
def Magic.matchesBuf (m : Magic) (buf : List Nat) : Bool :=
  if buf.length < m.offset + m.value.length then false
  else getBytes buf m.offset m.value.length == m.value

/-- `probe.Prober`, with the `Probe` call abstracted by its outcome for the
range being probed. -/
structure Prober (R : Type) where
  magics : List Magic
  outcome : Except Nat (Option R)

/-- `Chain.MaxMagicSize`: running maximum (`>=` keeps the later magic on a
tie, same value) of `BlockSize` over all probers' magics. -/
def maxMagicSize {R : Type} (chain : List (Prober R)) : Nat :=
  chain.foldl
    (fun acc p =>
      p.magics.foldl (fun acc m => if acc ≤ m.blockSize then m.blockSize else acc) acc)
    0

/-- `Chain.MagicMatches`: the `(magic, prober)` pairs whose magic matches
`buf`, in chain declaration order (a prober appears once per matching
magic). -/
def magicMatches {R : Type} (chain : List (Prober R)) (buf : List Nat) :
    List (Magic × Prober R) :=
  chain.flatMap fun p => (p.magics.filter (fun m => m.matchesBuf buf)).map (fun m => (m, p))

/-- The prober loop of `Info.probe`: call each matched prober in order; on
`err != nil || res == nil` skip to the next one ("skip failed probes" in
the source); return the first successful result. -/
def chainLoop {R : Type} : List (Magic × Prober R) → Option R
  | [] => none
  | (_, p) :: rest =>
    match p.outcome with
    | .error _ => chainLoop rest
    | .ok none => chainLoop rest
    | .ok (some r) => some r

/-- Failure cases of `Info.probe` itself (prober outcomes never surface as
errors from the loop). -/
inductive ProbeFailure
  | rangeOutOfBounds
  | rangeTooSmall
deriving DecidableEq

/-- Device metadata carried by `Info` and used by `Info.probe`. -/
structure ProbeInfo where
  size : Nat
  sectorSize : Nat
  ioSize : Nat
deriving DecidableEq

/-- The magic read size computed by `Info.probe`:
`max(chain.MaxMagicSize(), i.IOSize)`, clamped down to `length`. -/
def magicReadSize (maxMagic ioSize length : Nat) : Nat :=
  if length < max maxMagic ioSize then length else max maxMagic ioSize

/-- `Info.probe`: bounds checks, read the magic buffer, run the prober
loop over the magic matches.  The magic-buffer `ReadAt` is total in the
byte-map device model. -/
def infoProbe {R : Type} (i : ProbeInfo) (dev : Nat → Nat) (chain : List (Prober R))
    (offset length : Nat) : Except ProbeFailure (Option R) :=
  if i.size < offset + length then .error .rangeOutOfBounds
  else if length < maxMagicSize chain then .error .rangeTooSmall
  else
    let buf := readAt dev offset (magicReadSize (maxMagicSize chain) i.ioSize length)
    .ok (chainLoop (magicMatches chain buf))

/-! ## GPT in-memory partition and kernel synchronization (`gpt` package)

`Partition` is the in-memory entry; the partition name is modelled by its
sequence of UTF-16 code units (Go stores it as a string and converts with
a UTF-16LE codec), GUIDs by their 16 raw bytes (`uuid.UUID`). -/

/-- `gpt.Partition`. -/
structure Partition where
  name : List Nat
  typeGUID : List Nat
  partGUID : List Nat
  firstLBA : Nat
  lastLBA : Nat
  flags : Nat
deriving DecidableEq

/-- Outcome of a `KernelPartitionDelete` ioctl, as distinguished by
`syncKernel` (`unix.ENXIO`, `unix.EBUSY`, other errors, success). -/
inductive KernelDeleteResult
  | ok
  | devMissing
  | devBusy
  | otherErr
deriving DecidableEq

/-- Abstract kernel state: `GetKernelLastPartitionNum` and the outcomes of
the partition notification ioctls. -/
structure Kernel where
  lastPartitionNum : Nat
  deleteResult : Nat → KernelDeleteResult
  resizeOk : Nat → Bool
  addOk : Nat → Bool

/-- A kernel partition notification issued by `syncKernel`, with its
arguments. -/
inductive KernelCall
  | del (no : Nat)
  | resize (no start length : Nat)
  | add (no start length : Nat)
deriving DecidableEq

/-- How a `syncKernel` run ends: normal return, error return, or the Go
nil-pointer dereference of `myEntry` in the `KernelPartitionAdd` call. -/
inductive SyncResult
  | ok
  | fatal
  | nilPanic
deriving DecidableEq

/-- The loop body of `Table.syncKernel`, iterating partition numbers `no`,
`rem` numbers left, accumulating the notifications issued.  After a delete
that succeeds or reports `ENXIO`, the source unconditionally evaluates
`myEntry.FirstLBA` for the add notification — `myEntry == nil` is the
`.nilPanic` case.  `lastLBA - firstLBA + 1` is Go uint64 arithmetic;
claims using it keep `firstLBA ≤ lastLBA`. -/
def syncKernelLoop (entries : List (Option Partition)) (ss : Nat) (k : Kernel) :
    Nat → Nat → List KernelCall → SyncResult × List KernelCall
  | _, 0, calls => (.ok, calls)
  | no, rem + 1, calls =>
    let myEntry : Option Partition :=
      if no ≤ entries.length then entries.getD (no - 1) none else none
    let calls := calls ++ [.del no]
    match k.deleteResult no with
    | .devMissing =>
      -- partition doesn't exist, ok; fall through to the add
      match myEntry with
      | none => (.nilPanic, calls)
      | some e =>
        let calls := calls ++ [.add no (e.firstLBA * ss) ((e.lastLBA - e.firstLBA + 1) * ss)]
        if k.addOk no then syncKernelLoop entries ss k (no + 1) rem calls
        else (.fatal, calls)
    | .devBusy =>
      -- `EBUSY && myEntry != nil` resizes and continues; `EBUSY` with no
      -- in-memory entry falls to the `err != nil` fatal case
      match myEntry with
      | some e =>
        let calls :=
          calls ++ [.resize no (e.firstLBA * ss) ((e.lastLBA - e.firstLBA + 1) * ss)]
        if k.resizeOk no then syncKernelLoop entries ss k (no + 1) rem calls
        else (.fatal, calls)
      | none => (.fatal, calls)
    | .otherErr => (.fatal, calls)
    | .ok =>
      match myEntry with
      | none => (.nilPanic, calls)
      | some e =>
        let calls := calls ++ [.add no (e.firstLBA * ss) ((e.lastLBA - e.firstLBA + 1) * ss)]
        if k.addOk no then syncKernelLoop entries ss k (no + 1) rem calls
        else (.fatal, calls)

/-- `Table.syncKernel`: iterate `no = 1 .. max(kernel last partition
number, len(entries))`. -/
def syncKernel (entries : List (Option Partition)) (ss : Nat) (k : Kernel) :
    SyncResult × List KernelCall :=
  syncKernelLoop entries ss k 1 (max k.lastPartitionNum entries.length) []

/-! ## GPT table engine (`gpt` package) -/

/-- `gptstructs.ENTRY_SIZE`. -/
def entrySize : Nat := 128

/-- `gptstructs.NumEntries`. -/
def numEntries : Nat := 128

/-- `gptstructs.HEADER_SIZE` (the generated `Header` codec is not part of
the sources at hand; per the spec, HEADER_SIZE = 92). -/
def headerLength : Nat := 92

/-- `gptstructs.HeaderSignature` ("EFI PART"). -/
def gptHeaderSignature : Nat := 0x5452415020494645

/-- `gpt.Options` (the disk GUID option is folded into the `diskGUID`
parameter of `Table.new`: the GUID actually used, provided or random). -/
structure Options where
  skipLBAs : Nat
  skipPMBR : Bool
  markPMBRBootable : Bool
deriving DecidableEq

/-- `gpt.Device`: byte contents plus the queried geometry.  `ioSize =
none` models a failing `GetIOSize` (init falls back to the sector size). -/
structure Device where
  bytes : Nat → Nat
  sectorSize : Nat
  size : Nat
  ioSize : Option Nat

/-- `gptutil.LastLBA`: `size/sectorSize - 1`, failing when the device is
smaller than one sector.  (A zero sector size would make Go panic on
division; real devices report ≥ 512.) -/
def lastLBAOf (d : Device) : Option Nat :=
  if d.size < d.sectorSize then none else some (d.size / d.sectorSize - 1)

/-- LBAs needed for the 128-entry array:
`(ENTRY_SIZE*NumEntries + ss - 1) / ss`. -/
def lbasForEntries (ss : Nat) : Nat := (entrySize * numEntries + ss - 1) / ss

/-- `gpt.Table`: geometry fields plus the entries list (a `none` slot is a
deleted/vacant partition, preserved to keep numbering stable). -/
structure Table where
  lastLBA : Nat
  primaryHeaderLBA : Nat
  secondaryHeaderLBA : Nat
  primaryPartitionsLBA : Nat
  secondaryPartitionsLBA : Nat
  firstUsableLBA : Nat
  lastUsableLBA : Nat
  diskGUID : List Nat
  options : Options
  alignment : Nat
  sectorSize : Nat
  entries : List (Option Partition)
deriving DecidableEq

/-- `Table.init`: geometry derived from the device and the options. -/
def tableInit (dev : Device) (opts : Options) (diskGUID : List Nat) (lastLBA : Nat) :
    Table :=
  { lastLBA := lastLBA
    primaryHeaderLBA := 1
    secondaryHeaderLBA := lastLBA
    primaryPartitionsLBA := 1 + 1 + opts.skipLBAs
    secondaryPartitionsLBA := lastLBA - lbasForEntries dev.sectorSize
    firstUsableLBA := 1 + 1 + opts.skipLBAs + lbasForEntries dev.sectorSize
    lastUsableLBA := lastLBA - lbasForEntries dev.sectorSize - 1
    diskGUID := diskGUID
    options := opts
    alignment :=
      (max (dev.ioSize.getD dev.sectorSize) (2048 * 512) + dev.sectorSize - 1) /
        dev.sectorSize
    sectorSize := dev.sectorSize
    entries := [] }

/-- `gpt.New`: empty table; fails when the device holds fewer than 34
sectors. -/
def Table.new (dev : Device) (opts : Options) (diskGUID : List Nat) : Except Unit Table :=
  match lastLBAOf dev with
  | none => .error ()
  | some lastLBA =>
    if lastLBA < 33 then .error ()
    else .ok (tableInit dev opts diskGUID lastLBA)

/-- `gpt.allocatableRange`. -/
structure AllocRange where
  lowLBA : Nat
  highLBA : Nat
  partitionIdx : Nat
  size : Nat
deriving DecidableEq

/-- Round `low` up to a multiple of `align`:
`(lowLBA + alignment - 1) / alignment * alignment`. -/
def alignUpTo (low align : Nat) : Nat := (low + align - 1) / align * align

/-- The loop of `Table.allocatableRanges`.  The source's inner `for` has an
unconditional `break`, so it advances past at most ONE vacant (`nil`)
entry; if the entry it then lands on is still vacant the source
dereferences a nil pointer — modelled as `none`.  `none` for fuel
exhaustion is unreachable: the index grows every iteration and the loop
exits at the latest once it passes the end of the list.
(`e.firstLBA - 1` is Go uint64 arithmetic; entries of real tables have
`firstLBA ≥ firstUsableLBA ≥ 1`, where `Nat` and uint64 agree.) -/
def allocRangesLoop (t : Table) :
    Nat → Nat → Nat → List AllocRange → Option (List AllocRange)
  | 0, _, _, _ => none
  | fuel + 1, partitionIdx, lowLBA, acc =>
    let partitionIdx :=
      if partitionIdx < t.entries.length ∧ t.entries.getD partitionIdx none = none then
        partitionIdx + 1
      else partitionIdx
    if partitionIdx < t.entries.length then
      match t.entries.getD partitionIdx none with
      | none => none
      | some e =>
        let lowLBA := alignUpTo lowLBA t.alignment
        let highLBA := e.firstLBA - 1
        let acc :=
          if lowLBA < highLBA then
            acc ++ [⟨lowLBA, highLBA, partitionIdx, (highLBA - lowLBA + 1) * t.sectorSize⟩]
          else acc
        if highLBA = t.lastUsableLBA then some acc
        else allocRangesLoop t fuel (partitionIdx + 1) (e.lastLBA + 1) acc
    else
      let lowLBA := alignUpTo lowLBA t.alignment
      let highLBA := t.lastUsableLBA
      let acc :=
        if lowLBA < highLBA then
          acc ++ [⟨lowLBA, highLBA, partitionIdx, (highLBA - lowLBA + 1) * t.sectorSize⟩]
        else acc
      some acc

/-- `Table.allocatableRanges`; `none` models the Go panic on two
consecutive vacant entries. -/
def Table.allocatableRanges (t : Table) : Option (List AllocRange) :=
  allocRangesLoop t (t.entries.length + 1) 0 t.firstUsableLBA []

/-- `Table.LargestContiguousAllocatable` (`none`: panic inside
`allocatableRanges`). -/
def Table.largestContiguousAllocatable (t : Table) : Option Nat :=
  t.allocatableRanges.map fun rs =>
    rs.foldl (fun acc r => if acc < r.size then r.size else acc) 0

/-- `slices.Insert(l, i, v)`. -/
def insertAt (l : List (Option Partition)) (i : Nat) (v : Option Partition) :
    List (Option Partition) :=
  l.take i ++ v :: l.drop i

/-- Error cases of `Table.AllocatePartition`. -/
inductive AllocErr
  | sizeTooSmall
  | noSpace
deriving DecidableEq

/-- `Table.AllocatePartition`: best-fit choice among allocatable ranges,
insert at the range's index reusing an immediately preceding vacant slot.
Outer `none` models the panic inside `allocatableRanges`.  The returned
`Nat` is the source's `smallestRange.partitionIdx + 1` in both insertion
branches.  (Ranges always satisfy `partitionIdx ≤ entries.length`, so the
source's `entries[partitionIdx-1]` access is in range.) -/
def Table.allocatePartition (t : Table) (size : Nat) (name partType partGUID : List Nat)
    (flags : Nat) : Option (Table × Except AllocErr (Nat × Partition)) :=
  if size < t.sectorSize then some (t, .error .sizeTooSmall)
  else
    match t.allocatableRanges with
    | none => none
    | some ranges =>
      let smallestRange := ranges.foldl
        (fun acc r => if size ≤ r.size ∧ (acc.size = 0 ∨ r.size < acc.size) then r else acc)
        ⟨0, 0, 0, 0⟩
      if smallestRange.size = 0 then some (t, .error .noSpace)
      else
        let entry : Partition :=
          { name := name
            typeGUID := partType
            partGUID := partGUID
            firstLBA := smallestRange.lowLBA
            lastLBA := smallestRange.lowLBA + size / t.sectorSize - 1
            flags := flags }
        let entries :=
          if 0 < smallestRange.partitionIdx ∧
              t.entries.getD (smallestRange.partitionIdx - 1) none = none then
            t.entries.set (smallestRange.partitionIdx - 1) (some entry)
          else insertAt t.entries smallestRange.partitionIdx (some entry)
        some ({ t with entries := entries }, .ok (smallestRange.partitionIdx + 1, entry))

/-- `Table.DeletePartition`: mark the slot vacant; out-of-range index is
an error. -/
def Table.deletePartition (t : Table) (partition : Nat) : Except Unit Table :=
  if t.entries.length ≤ partition then .error ()
  else .ok { t with entries := t.entries.set partition none }

/-- `Table.AvailablePartitionGrowth`: size of the allocatable range
immediately after the entry, 0 if none abuts it.  Outer `none`: panic in
`allocatableRanges`. -/
def Table.availablePartitionGrowth (t : Table) (partition : Nat) :
    Option (Except Unit Nat) :=
  if t.entries.length ≤ partition then some (.error ())
  else
    match t.entries.getD partition none with
    | none => some (.error ())
    | some _ =>
      match t.allocatableRanges with
      | none => none
      | some ranges =>
        some (.ok (match ranges.find? (fun r => r.partitionIdx = partition + 1) with
          | some r => r.size
          | none => 0))

/-- `Table.GrowPartition`: reject growth beyond
`AvailablePartitionGrowth`; otherwise extend `lastLBA` by `size / ss`.
(The final `none` entry branch is unreachable: growth was only granted
for an allocated entry.) -/
def Table.growPartition (t : Table) (partition : Nat) (size : Nat) :
    Option (Except Unit Table) :=
  match t.availablePartitionGrowth partition with
  | none => none
  | some (.error e) => some (.error e)
  | some (.ok allowed) =>
    if allowed < size then some (.error ())
    else
      match t.entries.getD partition none with
      | none => some (.error ())
      | some e =>
        some (.ok { t with
          entries := t.entries.set partition
            (some { e with lastLBA := e.lastLBA + size / t.sectorSize }) })

/-! ## GPT on-disk serialization (`Table.Write`) and parsing (`ReadHeader`,
`Read`)

The generated `Header`/`Entry` byte-slice accessors are not among the
sources at hand; their field offsets are modelled from the spec's
normative layout (§6), which the present `Entry` codec matches.  Byte
buffers are `List Nat`; `Partition.name` is the name's UTF-16 code-unit
sequence, so the Go string↔UTF-16LE codec becomes the unit↔byte-pair
codec below. -/

/-- Encode name code units to UTF-16LE bytes (two little-endian bytes per
unit; code units are < 2^16 in Go). -/
def encodeNameUnits (name : List Nat) : List Nat :=
  name.flatMap fun u => [u % 256, u / 256 % 256]

/-- Decode UTF-16LE bytes back to code units (pairs of bytes). -/
def bytesToUnits : List Nat → List Nat
  | a :: b :: rest => (a + 256 * b) :: bytesToUnits rest
  | [a] => [a]
  | [] => []

/-- `bytes.TrimRight(name, "\x00")` on the decoded name: drop trailing
NUL (zero) code units. -/
def trimTrailingZeros (l : List Nat) : List Nat :=
  (l.reverse.dropWhile fun u => u = 0).reverse

/-- Serialize one slot of the entries array to its 128 bytes (offsets per
the `Entry` codec: partition_type_guid 0, unique_partition_guid 16,
starting_lba 32, ending_lba 40, attributes 48, partition_name 56,
NUL-padded to 72 bytes).  A vacant slot stays zeroed. -/
def serializeSlot : Option Partition → List Nat
  | none => List.replicate 128 0
  | some e =>
    uuidToGUID e.typeGUID ++ uuidToGUID e.partGUID ++ le64Bytes e.firstLBA ++
      le64Bytes e.lastLBA ++ le64Bytes e.flags ++
      encodeNameUnits e.name ++ List.replicate (72 - (encodeNameUnits e.name).length) 0

/-- The `Write`-time rejection of names longer than 72 UTF-16LE bytes. -/
def nameTooLong (s : Option Partition) : Bool :=
  match s with
  | none => false
  | some e => 72 < (encodeNameUnits e.name).length

/-- The 128 × 128-byte entries array built by `Table.Write` (slots past
the end of the entries list remain zero). -/
def Table.entriesArray (t : Table) : List Nat :=
  (List.range numEntries).flatMap fun i => serializeSlot (t.entries.getD i none)

/-- `Header.CalculateChecksum`: CRC32 over the first HEADER_SIZE = 92
bytes with the 4-byte CRC field (bytes 16..19) zeroed. -/
def headerChecksum (h : List Nat) : Nat :=
  crc32 (putBytesAt (h.take 92) 16 [0, 0, 0, 0])

/-- The spec's description of the header CRC: computed over the first
`header_size` bytes (the field at offset 12) with the CRC field zeroed.
Kept beside `headerChecksum` (what the source computes, always 92 bytes)
for comparison. -/
def headerChecksumSpec (h : List Nat) : Nat :=
  crc32 (putBytesAt (h.take (le32Get h 12)) 16 [0, 0, 0, 0])

/-- The sector-sized header template built by `Table.Write` (offsets per
the Header layout: signature 0, revision 8, header_size 12, crc32 16,
reserved 20, my_lba 24, alternate_lba 32, first_usable_lba 40,
last_usable_lba 48, disk_guid 56, partition_entries_lba 72,
num_partition_entries 80, sizeof_partition_entry 84,
partition_entry_array_crc32 88).  The per-copy fields stay zero here. -/
def Table.headerTemplate (t : Table) (entriesChecksum : Nat) : List Nat :=
  le64Bytes gptHeaderSignature ++ le32Bytes 0x00010000 ++ le32Bytes headerLength ++
    le32Bytes 0 ++ le32Bytes 0 ++ le64Bytes 0 ++ le64Bytes 0 ++
    le64Bytes t.firstUsableLBA ++ le64Bytes t.lastUsableLBA ++
    uuidToGUID t.diskGUID ++ le64Bytes 0 ++ le32Bytes numEntries ++
    le32Bytes entrySize ++ le32Bytes entriesChecksum ++
    List.replicate (t.sectorSize - headerLength) 0

/-- Finalize one header copy: set my_lba, alternate_lba,
partition_entries_lba, then store the header CRC. -/
def finalizeHeader (h : List Nat) (myLBA altLBA entriesLBA : Nat) : List Nat :=
  let h3 := putBytesAt (putBytesAt (putBytesAt h 24 (le64Bytes myLBA)) 32
    (le64Bytes altLBA)) 72 (le64Bytes entriesLBA)
  putBytesAt h3 16 (le32Bytes (headerChecksum h3))

/-- `Table.writePMBR`: read sector 0, set the boot signature (bytes
510/511) and the single protective entry at bytes 446..462 (bootable
flag, CHS 00-02-00, type 0xEE, CHS FF-FF-FF, start LBA 1, length
`min(lastLBA, 0xFFFFFFFF)` sectors), and write sector 0 back. -/
def Table.writePMBR (t : Table) (devBytes : Nat → Nat) : Nat → Nat :=
  let mbr := ((readAt devBytes 0 512).set 510 0x55).set 511 0xAA
  let flag := if t.options.markPMBRBootable then 0x80 else 0x00
  let entry := [flag, 0x00, 0x02, 0x00, 0xEE, 0xFF, 0xFF, 0xFF] ++ le32Bytes 1 ++
    le32Bytes (min t.lastLBA 0xFFFFFFFF)
  writeAt devBytes 0 (putBytesAt mbr 446 entry)

/-- The disk mutation performed by `Table.Write`: serialize the entries
array (erroring on over-long names; more than 128 slots is the Go slice
bounds panic, modelled `none`), write primary header, primary entries,
backup header, backup entries, and the protective MBR unless suppressed.
`syncKernel` (modelled separately) only issues ioctls and never changes
disk contents, and the final `Sync` is a flush; the bytes below are the
complete disk effect of `Write`. -/
def Table.writeDisk (t : Table) (dev : Device) : Option (Except Unit (Nat → Nat)) :=
  if numEntries < t.entries.length then none
  else if t.entries.any nameTooLong then some (.error ())
  else
    let entriesBuf := t.entriesArray
    let header := t.headerTemplate (crc32 entriesBuf)
    let d1 := writeAt dev.bytes (t.primaryHeaderLBA * t.sectorSize)
      (finalizeHeader header t.primaryHeaderLBA t.secondaryHeaderLBA
        t.primaryPartitionsLBA)
    let d2 := writeAt d1 (t.primaryPartitionsLBA * t.sectorSize) entriesBuf
    let d3 := writeAt d2 (t.secondaryHeaderLBA * t.sectorSize)
      (finalizeHeader header t.secondaryHeaderLBA t.primaryHeaderLBA
        t.secondaryPartitionsLBA)
    let d4 := writeAt d3 (t.secondaryPartitionsLBA * t.sectorSize) entriesBuf
    some (.ok (if t.options.skipPMBR then d4 else t.writePMBR d4))

/-- `gptstructs.ReadHeader`: read one sector at `lba`, run the validation
checks in source order, then read and checksum the entries array.
`none` = header rejected; the in-range `ReadFullAt`s are total in the
byte-map model.  Returns the raw header bytes and the 128-byte entry
slices. -/
def readHeader (dev : Nat → Nat) (ss : Nat) (lba lastLBA : Nat) :
    Option (List Nat × List (List Nat)) :=
  let buf := readAt dev (lba * ss) ss
  if le64Get buf 0 ≠ gptHeaderSignature then none
  else if le32Get buf 12 < headerLength ∨ ss < le32Get buf 12 then none
  else if le32Get buf 16 ≠ headerChecksum buf then none
  else if le64Get buf 24 ≠ lba then none
  else if le64Get buf 48 < le64Get buf 40 ∨ lastLBA < le64Get buf 40 ∨
      lastLBA < le64Get buf 48 then none
  else if le64Get buf 40 < lba ∧ lba < le64Get buf 48 then none
  else if le32Get buf 84 ≠ entrySize then none
  else if le32Get buf 80 = 0 ∨ numEntries < le32Get buf 80 then none
  else
    let entriesBuffer := readAt dev (le64Get buf 72 * ss) (le32Get buf 80 * entrySize)
    if crc32 entriesBuffer ≠ le32Get buf 88 then none
    else some (buf, (List.range (le32Get buf 80)).map fun i =>
      getBytes entriesBuffer (i * entrySize) entrySize)

/-- One step of the `Read` decode loop: skip entries outside the usable
window, then entries with a zero type GUID; otherwise build the in-memory
partition.  (`uuid.FromBytes` on 16 bytes and the UTF-16 decode cannot
fail here.) -/
def decodeEntry (firstUsable lastUsable : Nat) (buf : List Nat) : Option Partition :=
  if le64Get buf 32 < firstUsable ∨ lastUsable < le64Get buf 40 then none
  else if getBytes buf 0 16 == List.replicate 16 0 then none
  else some
    { name := trimTrailingZeros (bytesToUnits (getBytes buf 56 72))
      typeGUID := guidToUUID (getBytes buf 0 16)
      partGUID := guidToUUID (getBytes buf 16 16)
      firstLBA := le64Get buf 32
      lastLBA := le64Get buf 40
      flags := le64Get buf 48 }

/-- `lastFilledIdx`: index of the last non-vacant decoded slot (`none`
plays Go's −1). -/
def lastFilledIdx (parts : List (Option Partition)) : Option Nat :=
  (List.range parts.length).foldl
    (fun acc i => if (parts.getD i none).isSome then some i else acc) none

/-- `gpt.Read`: locate a valid header (primary at LBA 1, else backup at
the last LBA), rebuild the geometry via init (disk GUID from the header),
decode the entries, and keep the slots up to the last non-vacant one. -/
def Table.read (dev : Device) (opts : Options) : Except Unit Table :=
  match lastLBAOf dev with
  | none => .error ()
  | some lastLBA =>
    if lastLBA < 33 then .error ()
    else
      match (match readHeader dev.bytes dev.sectorSize 1 lastLBA with
        | some r => some r
        | none => readHeader dev.bytes dev.sectorSize lastLBA lastLBA) with
      | none => .error ()
      | some (hdr, entryBufs) =>
        let t0 := tableInit dev opts (guidToUUID (getBytes hdr 56 16)) lastLBA
        let parts := entryBufs.map (decodeEntry t0.firstUsableLBA t0.lastUsableLBA)
        .ok { t0 with entries :=
          match lastFilledIdx parts with
          | none => []
          | some k => parts.take (k + 1) }

/-- The truncation `Read` applies to the decoded slots: keep everything
up to the last non-vacant one (nothing if all are vacant). -/
def truncAfterLastFilled (parts : List (Option Partition)) : List (Option Partition) :=
  match lastFilledIdx parts with
  | none => []
  | some k => parts.take (k + 1)

/-- What the round-trip claim assumes of a single allocated entry: it
lies in the usable window, its numeric fields fit in uint64, its GUIDs
are 16 bytes with a non-zero type GUID, and its name is at most 36 code
units (72 UTF-16LE bytes) without a trailing NUL unit. -/
def SlotOK (fu lu : Nat) (e : Partition) : Prop :=
  fu ≤ e.firstLBA ∧ e.firstLBA ≤ e.lastLBA ∧ e.lastLBA ≤ lu ∧
  e.firstLBA < 2 ^ 64 ∧ e.lastLBA < 2 ^ 64 ∧ e.flags < 2 ^ 64 ∧
  e.typeGUID.length = 16 ∧ e.partGUID.length = 16 ∧
  (∀ x ∈ e.typeGUID, x < 256) ∧ (∀ x ∈ e.partGUID, x < 256) ∧
  e.typeGUID ≠ List.replicate 16 0 ∧
  e.name.length ≤ 36 ∧ (∀ x ∈ e.name, x < 2 ^ 16) ∧ e.name.getLast? ≠ some 0

instance (fu lu : Nat) (e : Partition) : Decidable (SlotOK fu lu e) := by
  unfold SlotOK
  infer_instance

/-- A finalized on-disk header with all fields spelled out (closed form
of `finalizeHeader` applied to `Table.headerTemplate`; proof artifact). -/
def headerFilled (t : Table) (ecrc myL altL pelL crcStored : Nat) : List Nat :=
  le64Bytes gptHeaderSignature ++ (le32Bytes 0x00010000 ++ (le32Bytes headerLength ++
    (le32Bytes crcStored ++ (le32Bytes 0 ++ (le64Bytes myL ++ (le64Bytes altL ++
    (le64Bytes t.firstUsableLBA ++ (le64Bytes t.lastUsableLBA ++ (uuidToGUID t.diskGUID ++
    (le64Bytes pelL ++ (le32Bytes numEntries ++ (le32Bytes entrySize ++
    (le32Bytes ecrc ++ List.replicate (t.sectorSize - headerLength) 0)))))))))))))

/-- The disk contents produced by a successful `writeDisk` (extractor for
stating concrete results). -/
def writtenBytes (t : Table) (dev : Device) : Nat → Nat :=
  match t.writeDisk dev with
  | some (.ok b) => b
  | _ => fun _ => 0

/-! ### Concrete header fixtures for the validation claims -/

/-- Build a concrete sector-sized test header with a valid stored CRC
(fixture for the validation theorems, not a source function). -/
def mkTestHeader (ss hdrSize myLBA altLBA firstU lastU entriesLBA num entriesCrc : Nat) :
    List Nat :=
  let raw := le64Bytes gptHeaderSignature ++ le32Bytes 0x00010000 ++ le32Bytes hdrSize ++
    le32Bytes 0 ++ le32Bytes 0 ++ le64Bytes myLBA ++ le64Bytes altLBA ++
    le64Bytes firstU ++ le64Bytes lastU ++ List.replicate 16 0 ++
    le64Bytes entriesLBA ++ le32Bytes num ++ le32Bytes entrySize ++
    le32Bytes entriesCrc ++ List.replicate (ss - 92) 0
  putBytesAt raw 16 (le32Bytes (headerChecksum raw))

/-- Backup-style header at LBA 100 whose own LBA equals its
last_usable_lba (usable range [34, 100]). -/
def hdrB : List Nat := mkTestHeader 96 92 100 1 34 100 3 1 (crc32 (List.replicate 128 0))

/-- A device (96-byte sectors) holding `hdrB` at LBA 100 and zeros
elsewhere. -/
def devB : Nat → Nat := writeAt (fun _ => 0) (100 * 96) hdrB

/-- Primary-style header whose header_size field is 93 while its stored
CRC is the source's 92-byte checksum. -/
def hdrC : List Nat := mkTestHeader 96 93 1 100 34 90 3 1 (crc32 (List.replicate 128 0))

/-- A device (96-byte sectors) holding `hdrC` at LBA 1 and zeros
elsewhere. -/
def devC : Nat → Nat := writeAt (fun _ => 0) (1 * 96) hdrC

/-- Well-formed primary-style header (header_size 92). -/
def hdrD : List Nat := mkTestHeader 96 92 1 100 34 90 3 1 (crc32 (List.replicate 128 0))

/-- A device (96-byte sectors) holding `hdrD` at LBA 1 and zeros
elsewhere. -/
def devD : Nat → Nat := writeAt (fun _ => 0) (1 * 96) hdrD

/-! ### Concrete scenario: a 2 GiB, 512-byte-sector device

Used as the concrete input of several claims: geometry from `Table.new`,
three 1 MiB partitions, then deletions. -/

/-- A 2 GiB device with 512-byte sectors and 512-byte optimal I/O. -/
def devA : Device :=
  { bytes := fun _ => 0, sectorSize := 512, size := 2 ^ 31, ioSize := some 512 }

/-- Default options. -/
def optsA : Options := { skipLBAs := 0, skipPMBR := false, markPMBRBootable := false }

/-- A fixed disk/partition GUID (16 bytes). -/
def guidA : List Nat := List.replicate 16 1

/-- A fixed partition type GUID (16 bytes). -/
def guidT : List Nat := List.replicate 16 2

/-- The table `Table.new devA` builds: last LBA 4194303, usable range
[34, 4194270], alignment 2048 LBAs (1 MiB). -/
def tA0 : Table := tableInit devA optsA guidA 4194303

/-- First 1 MiB partition: LBAs 2048–4095. -/
def pA1 : Partition :=
  { name := [], typeGUID := guidT, partGUID := guidA, firstLBA := 2048, lastLBA := 4095,
    flags := 0 }

/-- Second 1 MiB partition: LBAs 4096–6143. -/
def pA2 : Partition :=
  { name := [], typeGUID := guidT, partGUID := guidA, firstLBA := 4096, lastLBA := 6143,
    flags := 0 }

/-- Third 1 MiB partition: LBAs 6144–8191. -/
def pA3 : Partition :=
  { name := [], typeGUID := guidT, partGUID := guidA, firstLBA := 6144, lastLBA := 8191,
    flags := 0 }

/-- After allocating `pA1`. -/
def tA1 : Table := { tA0 with entries := [some pA1] }

/-- After allocating `pA1`, `pA2`. -/
def tA2 : Table := { tA0 with entries := [some pA1, some pA2] }

/-- After allocating `pA1`, `pA2`, `pA3`. -/
def tA3 : Table := { tA0 with entries := [some pA1, some pA2, some pA3] }

/-- After deleting partition index 0: one vacant slot. -/
def tA4 : Table := { tA0 with entries := [none, some pA2, some pA3] }

/-- After deleting partition indices 0 and 1: two consecutive vacant
slots before an allocated entry. -/
def tA5 : Table := { tA0 with entries := [none, none, some pA3] }

/-- A partition whose type GUID is all-zero (the on-disk "unused entry"
marker), otherwise well-formed: 1 MiB at LBAs 2048–4095. -/
def pZ : Partition :=
  { name := [], typeGUID := List.replicate 16 0, partGUID := guidA, firstLBA := 2048,
    lastLBA := 4095, flags := 0 }

/-! ### Concrete probers and kernels for the probe/sync claims -/

/-- Is a prober outcome skipped by the chain loop (error or "not me")? -/
def skippedOutcome {R : Type} : Except Nat (Option R) → Bool
  | .error _ => true
  | .ok none => true
  | .ok (some _) => false

/-- The always-matching NULL magic. -/
def nullMagic : Magic := ⟨[], 0⟩

/-- A prober (NULL magic) whose Probe call fails with an I/O error. -/
def proberFailingA : Prober Nat := { magics := [nullMagic], outcome := .error 7 }

/-- A prober (NULL magic) whose Probe call succeeds with result 42. -/
def proberSucceedingA : Prober Nat := { magics := [nullMagic], outcome := .ok (some 42) }

/-- Probe metadata for the concrete chain runs. -/
def infoA : ProbeInfo := { size := 1024, sectorSize := 512, ioSize := 16 }

/-- A kernel that already knows two partitions; deletes succeed. -/
def kernelA : Kernel :=
  { lastPartitionNum := 2
    deleteResult := fun _ => .ok
    resizeOk := fun _ => true
    addOk := fun _ => true }

end BlockDev

namespace BlockDev

/-! ## Helper lemmas -/

/-- The running maximum of range sizes is at least its initial value. -/
theorem init_le_foldl_max (rs : List AllocRange) (a : Nat) :
    a ≤ rs.foldl (fun acc r => if acc < r.size then r.size else acc) a := by
  induction rs generalizing a with
  | nil => exact Nat.le_refl a
  | cons r rs ih =>
    refine Nat.le_trans ?_ (ih (if a < r.size then r.size else a))
    split <;> omega

/-- Every range size is bounded by the running maximum. -/
theorem mem_size_le_foldl_max (rs : List AllocRange) (a : Nat) (r : AllocRange)
    (hr : r ∈ rs) :
    r.size ≤ rs.foldl (fun acc r => if acc < r.size then r.size else acc) a := by
  induction rs generalizing a with
  | nil => cases hr
  | cons q qs ih =>
    rcases List.mem_cons.mp hr with h | h
    · subst h
      simp only [List.foldl_cons]
      refine Nat.le_trans ?_ (init_le_foldl_max qs _)
      dsimp only
      split <;> omega
    · simp only [List.foldl_cons]
      exact ih _ h

/-- If no range is large enough, the best-fit fold keeps its initial
value. -/
theorem foldl_bestfit_init (rs : List AllocRange) (size : Nat) (init : AllocRange)
    (h : ∀ r ∈ rs, ¬ size ≤ r.size) :
    rs.foldl
      (fun acc r => if size ≤ r.size ∧ (acc.size = 0 ∨ r.size < acc.size) then r else acc)
      init = init := by
  induction rs generalizing init with
  | nil => rfl
  | cons q qs ih =>
    have hq : ¬ size ≤ q.size := h q (List.mem_cons_self q qs)
    have hif : (if size ≤ q.size ∧ (init.size = 0 ∨ q.size < init.size) then q else init) =
        init := if_neg fun hc => hq hc.1
    show List.foldl
        (fun acc r => if size ≤ r.size ∧ (acc.size = 0 ∨ r.size < acc.size) then r else acc)
        (if size ≤ q.size ∧ (init.size = 0 ∨ q.size < init.size) then q else init) qs = init
    rw [hif]
    exact ih init fun r hr => h r (List.mem_cons_of_mem q hr)

/-! ## Indexing helper lemmas (`List.getD` vs `set`/`insertAt`) -/

/-- Default when reading past the end of the list. -/
theorem getD_of_len_le {α : Type} (d : α) : ∀ (l : List α) (i : Nat), l.length ≤ i →
    l.getD i d = d
  | [], _, _ => rfl
  | _ :: xs, i + 1, h => getD_of_len_le d xs i (Nat.le_of_succ_le_succ h)

/-- Reading the slot just set. -/
theorem getD_set_self {α : Type} (v d : α) : ∀ (l : List α) (k : Nat), k < l.length →
    (l.set k v).getD k d = v
  | [], _, h => absurd h (Nat.not_lt_zero _)
  | _ :: _, 0, _ => rfl
  | _ :: xs, k + 1, h => getD_set_self v d xs k (Nat.lt_of_succ_lt_succ h)

/-- Reading any other slot after a set. -/
theorem getD_set_ne {α : Type} (v d : α) : ∀ (l : List α) (k i : Nat), i ≠ k →
    (l.set k v).getD i d = l.getD i d
  | [], _, _, _ => rfl
  | _ :: _, 0, 0, h => absurd rfl h
  | _ :: _, _ + 1, 0, _ => rfl
  | _ :: _, 0, _ + 1, _ => rfl
  | _ :: xs, k + 1, i + 1, h =>
    getD_set_ne v d xs k i fun he => h (congrArg Nat.succ he)

/-- `insertAt` at `i ≤ length` leaves indices below `i` unchanged. -/
theorem getD_insertAt_lt (v : Option Partition) :
    ∀ (l : List (Option Partition)) (i k : Nat), k < i → i ≤ l.length →
      (insertAt l i v).getD k none = l.getD k none
  | [], _, _, hk, hi => absurd hk (by
      simp only [List.length_nil, Nat.le_zero] at hi
      omega)
  | _ :: _, _ + 1, 0, _, _ => rfl
  | _ :: xs, i + 1, k + 1, hk, hi =>
    getD_insertAt_lt v xs i k (Nat.lt_of_succ_lt_succ hk) (Nat.le_of_succ_le_succ hi)

/-- `insertAt` places `v` at index `i` (for `i ≤ length`). -/
theorem getD_insertAt_self (v : Option Partition) :
    ∀ (l : List (Option Partition)) (i : Nat), i ≤ l.length →
      (insertAt l i v).getD i none = v
  | _, 0, _ => rfl
  | [], _ + 1, h => absurd h (by simp)
  | _ :: xs, i + 1, h => getD_insertAt_self v xs i (Nat.le_of_succ_le_succ h)

/-- `insertAt` shifts indices above `i` up by one. -/
theorem getD_insertAt_gt (v : Option Partition) :
    ∀ (l : List (Option Partition)) (i k : Nat), i < k →
      (insertAt l i v).getD k none = l.getD (k - 1) none
  | l, 0, k + 1, _ => by
    show (v :: l).getD (k + 1) none = l.getD k none
    rfl
  | [], i + 1, k + 1, _ => by
    unfold insertAt
    simp only [List.take_nil, List.drop_nil, List.nil_append]
    cases k <;> rfl
  | x :: xs, i + 1, k + 1, h => by
    show (x :: insertAt xs i v).getD (k + 1) none = (x :: xs).getD k none
    cases k with
    | zero => exact absurd h (by omega)
    | succ k =>
      show (insertAt xs i v).getD (k + 1) none = xs.getD k none
      have := getD_insertAt_gt v xs i (k + 1) (Nat.lt_of_succ_lt_succ h)
      simpa using this

/-! ## Alignment helper lemmas -/

/-- `alignUpTo` lands on a multiple of the alignment. -/
theorem alignUpTo_mod (low a : Nat) : alignUpTo low a % a = 0 :=
  Nat.mul_mod_left _ a

/-- `alignUpTo` does not decrease its input (positive alignment). -/
theorem le_alignUpTo (low a : Nat) (ha : 0 < a) : low ≤ alignUpTo low a := by
  unfold alignUpTo
  rw [Nat.mul_comm]
  have h1 := Nat.div_add_mod (low + a - 1) a
  have h2 : (low + a - 1) % a < a := Nat.mod_lt _ ha
  omega

/-! ## Table invariant: ordering, placement, and alignment of entries -/

/-- Allocated entries appear in ascending LBA order and are pairwise
disjoint: whenever slot `i` precedes slot `j`, the earlier entry ends
strictly before the later one starts. -/
def EntriesOrdered (es : List (Option Partition)) : Prop :=
  ∀ i j a b, i < j → es.getD i none = some a → es.getD j none = some b →
    a.lastLBA < b.firstLBA

/-- Every allocated entry lies inside the usable window, has a nonempty
LBA range, and starts at a multiple of the table's alignment. -/
def EntriesWellPlaced (t : Table) : Prop :=
  ∀ i e, t.entries.getD i none = some e →
    t.firstUsableLBA ≤ e.firstLBA ∧ e.firstLBA ≤ e.lastLBA ∧
    e.lastLBA ≤ t.lastUsableLBA ∧ e.firstLBA % t.alignment = 0

/-- The inductive invariant: geometry sanity (as established by `New`)
plus ordering and placement of the entries. -/
def TableInv (t : Table) : Prop :=
  0 < t.alignment ∧ 1 ≤ t.firstUsableLBA ∧ 0 < t.sectorSize ∧
  EntriesOrdered t.entries ∧ EntriesWellPlaced t

/-- What the free-range walk guarantees about each returned range: an
aligned, in-window, nonempty range that lies strictly after every entry
before its `partitionIdx` and strictly before every entry from
`partitionIdx` on. -/
def RangeOK (t : Table) (r : AllocRange) : Prop :=
  r.lowLBA % t.alignment = 0 ∧
  t.firstUsableLBA ≤ r.lowLBA ∧
  r.lowLBA ≤ r.highLBA ∧
  r.highLBA ≤ t.lastUsableLBA ∧
  r.size = (r.highLBA - r.lowLBA + 1) * t.sectorSize ∧
  r.partitionIdx ≤ t.entries.length ∧
  (∀ j a, j < r.partitionIdx → t.entries.getD j none = some a → a.lastLBA < r.lowLBA) ∧
  (∀ j a, r.partitionIdx ≤ j → t.entries.getD j none = some a → r.highLBA < a.firstLBA)

/-- Appending a range (under a condition) to a list of good ranges keeps
them all good. -/
theorem rangeok_append (t : Table) (acc : List AllocRange) (c : Prop) [Decidable c]
    (r : AllocRange) (hacc : ∀ x ∈ acc, RangeOK t x) (hr : c → RangeOK t r) :
    ∀ x ∈ (if c then acc ++ [r] else acc), RangeOK t x := by
  split
  next hc =>
    intro x hx
    rcases List.mem_append.mp hx with h | h
    · exact hacc x h
    · rw [List.mem_singleton.mp h]
      exact hr hc
  next => exact hacc

/-- Soundness of the free-range walk: whenever `allocRangesLoop` completes
(no nil dereference), every range it returns satisfies `RangeOK`,
provided the accumulated ranges do, all entries before `idx` end before
`low`, and `low` is in the usable window. -/
theorem allocRangesLoop_ok (t : Table) (hal : 0 < t.alignment)
    (_hfu1 : 1 ≤ t.firstUsableLBA) (hord : EntriesOrdered t.entries)
    (hwp : EntriesWellPlaced t) :
    ∀ (fuel idx low : Nat) (acc rs : List AllocRange),
      allocRangesLoop t fuel idx low acc = some rs →
      idx ≤ t.entries.length →
      (∀ r ∈ acc, RangeOK t r) →
      (∀ j a, j < idx → t.entries.getD j none = some a → a.lastLBA < low) →
      t.firstUsableLBA ≤ low →
      ∀ r ∈ rs, RangeOK t r := by
  intro fuel
  induction fuel with
  | zero =>
    intro idx low acc rs hrun
    simp [allocRangesLoop] at hrun
  | succ fuel ih =>
    intro idx low acc rs hrun hidx hacc hlow hfu
    simp only [allocRangesLoop] at hrun
    set idx2 := if idx < t.entries.length ∧ t.entries.getD idx none = none then idx + 1
      else idx with hidx2
    have hidx2le : idx2 ≤ t.entries.length := by
      rw [hidx2]
      split
      next hc => omega
      next => exact hidx
    have hlow2 : ∀ j a, j < idx2 → t.entries.getD j none = some a → a.lastLBA < low := by
      intro j a hj ha
      rw [hidx2] at hj
      by_cases hc : idx < t.entries.length ∧ t.entries.getD idx none = none
      · rw [if_pos hc] at hj
        rcases Nat.lt_succ_iff_lt_or_eq.mp hj with h | h
        · exact hlow j a h ha
        · subst h
          rw [hc.2] at ha
          cases ha
      · rw [if_neg hc] at hj
        exact hlow j a hj ha
    clear hlow hidx hidx2
    split at hrun
    next hlt =>
      -- an entry slot lies ahead
      split at hrun
      next heq =>
        -- the slot is still vacant after the single skip: Go panics, no result
        cases hrun
      next e heq =>
        -- facts about the entry found at idx2
        have he := hwp idx2 e heq
        have hnew : alignUpTo low t.alignment < e.firstLBA - 1 →
            RangeOK t ⟨alignUpTo low t.alignment, e.firstLBA - 1, idx2,
              (e.firstLBA - 1 - alignUpTo low t.alignment + 1) * t.sectorSize⟩ := by
          intro hgap
          have hle := le_alignUpTo low t.alignment hal
          unfold RangeOK
          dsimp only
          refine ⟨alignUpTo_mod low t.alignment, Nat.le_trans hfu hle, by omega,
            by omega, rfl, Nat.le_of_lt hlt, ?_, ?_⟩
          · intro j a hj ha
            exact Nat.lt_of_lt_of_le (hlow2 j a hj ha) hle
          · intro j a hj ha
            rcases Nat.eq_or_lt_of_le hj with h | h
            · rw [← h] at ha
              rw [heq] at ha
              injection ha with ha2
              subst ha2
              omega
            · have := hord idx2 j e a h heq ha
              omega
        split at hrun
        next hbreak =>
          -- highLBA = lastUsableLBA: return the accumulated ranges
          rw [← Option.some.inj hrun]
          exact rangeok_append t acc _ _ hacc hnew
        next hbreak =>
          -- continue after the entry
          refine ih (idx2 + 1) (e.lastLBA + 1) _ rs hrun (by omega)
            (rangeok_append t acc _ _ hacc hnew) ?_ (by omega)
          intro j a hj ha
          rcases Nat.lt_succ_iff_lt_or_eq.mp hj with h | h
          · have := hord j idx2 a e h ha heq
            omega
          · subst h
            rw [heq] at ha
            injection ha with ha2
            subst ha2
            omega
    next hge =>
      -- past the end of the entries list: final range up to lastUsableLBA
      rw [← Option.some.inj hrun]
      refine rangeok_append t acc _ _ hacc ?_
      intro hgap
      have hle := le_alignUpTo low t.alignment hal
      unfold RangeOK
      dsimp only
      refine ⟨alignUpTo_mod low t.alignment, Nat.le_trans hfu hle, by omega,
        Nat.le_refl _, rfl, hidx2le, ?_, ?_⟩
      · intro j a hj ha
        exact Nat.lt_of_lt_of_le (hlow2 j a hj ha) hle
      · intro j a hj ha
        rw [getD_of_len_le none t.entries j (by omega)] at ha
        cases ha

/-- The best-fit fold either keeps its initial value or picks a list
member that is large enough. -/
theorem foldl_bestfit_mem (size : Nat) :
    ∀ (rs : List AllocRange) (init : AllocRange),
      (rs.foldl
          (fun acc r => if size ≤ r.size ∧ (acc.size = 0 ∨ r.size < acc.size) then r else acc)
          init = init) ∨
      ((rs.foldl
          (fun acc r => if size ≤ r.size ∧ (acc.size = 0 ∨ r.size < acc.size) then r else acc)
          init) ∈ rs ∧
        size ≤ (rs.foldl
          (fun acc r => if size ≤ r.size ∧ (acc.size = 0 ∨ r.size < acc.size) then r else acc)
          init).size)
  | [], _ => Or.inl rfl
  | q :: qs, init => by
    simp only [List.foldl_cons]
    rcases foldl_bestfit_mem size qs
        (if size ≤ q.size ∧ (init.size = 0 ∨ q.size < init.size) then q else init) with
      h | h
    · rw [h]
      by_cases hc : size ≤ q.size ∧ (init.size = 0 ∨ q.size < init.size)
      · rw [if_pos hc]
        exact Or.inr ⟨List.mem_cons_self q qs, hc.1⟩
      · rw [if_neg hc]
        exact Or.inl rfl
    · exact Or.inr ⟨List.mem_cons_of_mem q h.1, h.2⟩

/-- A successful or failing `AllocatePartition` call (that does not panic)
preserves the table invariant. -/
theorem allocatePartition_inv (t t' : Table) (size : Nat)
    (name partType partGUID : List Nat) (flags : Nat)
    (res : Except AllocErr (Nat × Partition)) (hinv : TableInv t)
    (hstep : t.allocatePartition size name partType partGUID flags = some (t', res)) :
    TableInv t' := by
  obtain ⟨hal, hfu1, hss, hord, hwp⟩ := hinv
  unfold Table.allocatePartition at hstep
  split at hstep
  next =>
    have h := Option.some.inj hstep
    have h1 : t = t' := congrArg Prod.fst h
    subst h1
    exact ⟨hal, hfu1, hss, hord, hwp⟩
  next hsize =>
    split at hstep
    next => cases hstep
    next rs hranges =>
      have hok : ∀ r ∈ rs, RangeOK t r := by
        refine allocRangesLoop_ok t hal hfu1 hord hwp (t.entries.length + 1) 0
          t.firstUsableLBA [] rs hranges (Nat.zero_le _) (fun r hr => absurd hr
            (List.not_mem_nil r)) (fun j a hj _ => absurd hj (Nat.not_lt_zero j))
          (Nat.le_refl _)
      dsimp only at hstep
      split at hstep
      next =>
        have h := Option.some.inj hstep
        have h1 : t = t' := congrArg Prod.fst h
        subst h1
        exact ⟨hal, hfu1, hss, hord, hwp⟩
      next hzero =>
        rcases foldl_bestfit_mem size rs ⟨0, 0, 0, 0⟩ with hcase | ⟨hmem, hsz⟩
        · rw [hcase] at hzero
          exact absurd rfl hzero
        · obtain ⟨hmod, hfuLow, hlh, hhU, hsizeEq, hpLen, hbefore, hafter⟩ := hok _ hmem
          have h := Option.some.inj hstep
          have h1 := congrArg Prod.fst h
          dsimp only at h1
          rw [← h1]
          clear h h1 hstep
          set sm := rs.foldl
            (fun acc r => if size ≤ r.size ∧ (acc.size = 0 ∨ r.size < acc.size) then r else acc)
            (⟨0, 0, 0, 0⟩ : AllocRange) with hsm
          -- bounds of the created entry
          have hd1 : 1 ≤ size / t.sectorSize :=
            (Nat.one_le_div_iff hss).mpr (Nat.le_of_not_lt hsize)
          have hdle : size / t.sectorSize ≤ sm.highLBA - sm.lowLBA + 1 := by
            have h2 : size / t.sectorSize ≤
                (sm.highLBA - sm.lowLBA + 1) * t.sectorSize / t.sectorSize :=
              Nat.div_le_div_right (hsizeEq ▸ hsz)
            rwa [Nat.mul_div_cancel _ hss] at h2
          have hentLast : sm.lowLBA + size / t.sectorSize - 1 ≤ sm.highLBA := by omega
          have hentFL : sm.lowLBA ≤ sm.lowLBA + size / t.sectorSize - 1 := by omega
          -- the two insertion shapes
          split
          next hre =>
            -- reuse of the vacant slot just before the range's index
            have hplen : sm.partitionIdx - 1 < t.entries.length := by omega
            refine ⟨hal, hfu1, hss, ?_, ?_⟩
            · intro i j a b hij hai hbj
              dsimp only at hai hbj
              by_cases hi : i = sm.partitionIdx - 1 <;>
                by_cases hj2 : j = sm.partitionIdx - 1
              · omega
              · subst hi
                rw [getD_set_self _ _ _ _ hplen] at hai
                rw [getD_set_ne _ _ _ _ _ hj2] at hbj
                injection hai with hai2
                subst hai2
                dsimp only
                have := hafter j b (by omega) hbj
                omega
              · subst hj2
                rw [getD_set_self _ _ _ _ hplen] at hbj
                rw [getD_set_ne _ _ _ _ _ hi] at hai
                injection hbj with hbj2
                subst hbj2
                dsimp only
                have := hbefore i a (by omega) hai
                omega
              · rw [getD_set_ne _ _ _ _ _ hi] at hai
                rw [getD_set_ne _ _ _ _ _ hj2] at hbj
                exact hord i j a b hij hai hbj
            · intro i e0 hi
              dsimp only at hi ⊢
              by_cases hieq : i = sm.partitionIdx - 1
              · subst hieq
                rw [getD_set_self _ _ _ _ hplen] at hi
                injection hi with hi2
                subst hi2
                exact ⟨hfuLow, hentFL, by dsimp only; omega, hmod⟩
              · rw [getD_set_ne _ _ _ _ _ hieq] at hi
                exact hwp i e0 hi
          next hre =>
            -- plain insertion, shifting later entries
            refine ⟨hal, hfu1, hss, ?_, ?_⟩
            · intro i j a b hij hai hbj
              dsimp only at hai hbj
              rcases Nat.lt_trichotomy j sm.partitionIdx with hj3 | hj3 | hj3
              · rw [getD_insertAt_lt _ _ _ _ hj3 hpLen] at hbj
                rw [getD_insertAt_lt _ _ _ _ (by omega) hpLen] at hai
                exact hord i j a b hij hai hbj
              · subst hj3
                rw [getD_insertAt_self _ _ _ hpLen] at hbj
                injection hbj with hbj2
                subst hbj2
                rw [getD_insertAt_lt _ _ _ _ hij hpLen] at hai
                dsimp only
                have := hbefore i a hij hai
                omega
              · rw [getD_insertAt_gt _ _ _ _ hj3] at hbj
                rcases Nat.lt_trichotomy i sm.partitionIdx with hi3 | hi3 | hi3
                · rw [getD_insertAt_lt _ _ _ _ hi3 hpLen] at hai
                  have hb := hafter (j - 1) b (by omega) hbj
                  have ha := hbefore i a hi3 hai
                  omega
                · subst hi3
                  rw [getD_insertAt_self _ _ _ hpLen] at hai
                  injection hai with hai2
                  subst hai2
                  dsimp only
                  have := hafter (j - 1) b (by omega) hbj
                  omega
                · rw [getD_insertAt_gt _ _ _ _ hi3] at hai
                  exact hord (i - 1) (j - 1) a b (by omega) hai hbj
            · intro i e0 hi
              dsimp only at hi ⊢
              rcases Nat.lt_trichotomy i sm.partitionIdx with hi3 | hi3 | hi3
              · rw [getD_insertAt_lt _ _ _ _ hi3 hpLen] at hi
                exact hwp i e0 hi
              · subst hi3
                rw [getD_insertAt_self _ _ _ hpLen] at hi
                injection hi with hi2
                subst hi2
                exact ⟨hfuLow, hentFL, by dsimp only; omega, hmod⟩
              · rw [getD_insertAt_gt _ _ _ _ hi3] at hi
                exact hwp (i - 1) e0 hi

/-- `DeletePartition` preserves the table invariant. -/
theorem deletePartition_inv (t t' : Table) (i : Nat) (hinv : TableInv t)
    (hdel : t.deletePartition i = .ok t') : TableInv t' := by
  obtain ⟨hal, hfu1, hss, hord, hwp⟩ := hinv
  unfold Table.deletePartition at hdel
  split at hdel
  next => cases hdel
  next hlen =>
    injection hdel with h
    subst h
    refine ⟨hal, hfu1, hss, ?_, ?_⟩
    · intro i' j a b hij hai hbj
      dsimp only at hai hbj
      by_cases hi : i' = i
      · subst hi
        rw [getD_set_self _ _ _ _ (by omega)] at hai
        cases hai
      · by_cases hj2 : j = i
        · subst hj2
          rw [getD_set_self _ _ _ _ (by omega)] at hbj
          cases hbj
        · rw [getD_set_ne _ _ _ _ _ hi] at hai
          rw [getD_set_ne _ _ _ _ _ hj2] at hbj
          exact hord i' j a b hij hai hbj
    · intro i' e0 hi
      dsimp only at hi ⊢
      by_cases hieq : i' = i
      · subst hieq
        rw [getD_set_self _ _ _ _ (by omega)] at hi
        cases hi
      · rw [getD_set_ne _ _ _ _ _ hieq] at hi
        exact hwp i' e0 hi

/-- `New` produces a table satisfying the invariant, with no entries. -/
theorem new_table_inv (dev : Device) (opts : Options) (guid : List Nat) (t : Table)
    (h : Table.new dev opts guid = .ok t) : TableInv t ∧ t.entries = [] := by
  unfold Table.new at h
  cases hl : lastLBAOf dev with
  | none => rw [hl] at h; cases h
  | some lastLBA =>
    rw [hl] at h
    dsimp only at h
    split at h
    next => cases h
    next h33 =>
      injection h with h'
      subst h'
      unfold lastLBAOf at hl
      split at hl
      next => cases hl
      next hsz =>
        injection hl with hl'
        have hss : 0 < dev.sectorSize := by
          rcases Nat.eq_zero_or_pos dev.sectorSize with h0 | h0
          · rw [h0, Nat.div_zero] at hl'
            omega
          · exact h0
        have halign : 0 < (max (dev.ioSize.getD dev.sectorSize) (2048 * 512) +
            dev.sectorSize - 1) / dev.sectorSize := by
          refine Nat.div_pos ?_ hss
          have h1 : 2048 * 512 ≤ max (dev.ioSize.getD dev.sectorSize) (2048 * 512) :=
            Nat.le_max_right _ _
          omega
        refine ⟨⟨halign, by simp only [tableInit]; omega, hss, ?_, ?_⟩, rfl⟩
        · intro i j a b _ hai _
          simp only [tableInit] at hai
          rw [getD_of_len_le none [] i (Nat.zero_le i)] at hai
          cases hai
        · intro i e0 hi
          simp only [tableInit] at hi
          rw [getD_of_len_le none [] i (Nat.zero_le i)] at hi
          cases hi

/-- One `AllocatePartition` or `DeletePartition` call that completes
(returns rather than panics). -/
inductive TableStep : Table → Table → Prop
  | alloc (t t' : Table) (size : Nat) (name partType partGUID : List Nat) (flags : Nat)
      (res : Except AllocErr (Nat × Partition)) :
      t.allocatePartition size name partType partGUID flags = some (t', res) →
      TableStep t t'
  | del (t t' : Table) (i : Nat) : t.deletePartition i = .ok t' → TableStep t t'
  | delFail (t : Table) (i : Nat) : t.deletePartition i = .error () → TableStep t t

/-- Tables reachable from `t0` by completed allocate/delete calls. -/
inductive TableReachable (t0 : Table) : Table → Prop
  | base : TableReachable t0 t0
  | step (t t' : Table) : TableReachable t0 t → TableStep t t' → TableReachable t0 t'

/-- A step preserves the invariant. -/
theorem tableStep_inv (t t' : Table) (hstep : TableStep t t') (hinv : TableInv t) :
    TableInv t' := by
  cases hstep with
  | alloc _ _ _ _ _ _ _ h =>
    exact allocatePartition_inv _ _ _ _ _ _ _ _ hinv h
  | del _ _ h => exact deletePartition_inv _ _ _ hinv h
  | delFail _ _ => exact hinv

/-- C2: starting from a table built by `New`, after every finite sequence
of completed `AllocatePartition` and `DeletePartition` calls, the LBA
ranges of the non-vacant entries are pairwise disjoint and appear in
ascending-LBA order in the entries list (slot `i` before slot `j` implies
the earlier entry ends strictly before the later begins), and every
non-vacant entry starts at a multiple of the table's alignment. -/
theorem reachable_entries_disjoint_sorted_aligned (dev : Device) (opts : Options)
    (guid : List Nat) (t0 t : Table) (hnew : Table.new dev opts guid = .ok t0)
    (hr : TableReachable t0 t) :
    EntriesOrdered t.entries ∧
    (∀ i e, t.entries.getD i none = some e → e.firstLBA % t.alignment = 0) := by
  have hinv : TableInv t := by
    induction hr with
    | base => exact (new_table_inv dev opts guid t0 hnew).1
    | step t1 t2 _ hstep ih => exact tableStep_inv t1 t2 hstep ih
  exact ⟨hinv.2.2.2.1, fun i e h => (hinv.2.2.2.2 i e h).2.2.2⟩

/-- C2 witness: the state `[vacant, vacant, pA3]`, reached from `New` by
three allocations and two deletions, satisfies the ordering and alignment
invariants. -/
theorem reachable_entries_disjoint_sorted_aligned_witness :
    EntriesOrdered tA5.entries ∧
    (∀ i e, tA5.entries.getD i none = some e → e.firstLBA % tA5.alignment = 0) :=
  reachable_entries_disjoint_sorted_aligned devA optsA guidA tA0 tA5 (by decide)
    (.step tA4 tA5
      (.step tA3 tA4
        (.step tA2 tA3
          (.step tA1 tA2
            (.step tA0 tA1 .base
              (.alloc tA0 tA1 1048576 [] guidT guidA 0 (.ok (1, pA1)) (by decide)))
            (.alloc tA1 tA2 1048576 [] guidT guidA 0 (.ok (2, pA2)) (by decide)))
          (.alloc tA2 tA3 1048576 [] guidT guidA 0 (.ok (3, pA3)) (by decide)))
        (.del tA3 tA4 0 (by decide)))
      (.del tA4 tA5 1 (by decide)))

/-! ## Claim theorems: allocation error handling, placement, and the
free-range walk -/

/-- C3: for every table state whose free-range walk completes (so that
`LargestContiguousAllocatable` returns a value `v`) and every requested
size strictly larger than `v`, `AllocatePartition` returns an error and
leaves the table — entries (vacant slots included) and all other fields —
unchanged. -/
theorem allocatePartition_space_exhausted (t : Table) (size v : Nat)
    (name partType partGUID : List Nat) (flags : Nat)
    (hv : t.largestContiguousAllocatable = some v) (hs : v < size) :
    ∃ e, t.allocatePartition size name partType partGUID flags = some (t, .error e) := by
  unfold Table.allocatePartition
  by_cases hss : size < t.sectorSize
  · exact ⟨.sizeTooSmall, by rw [if_pos hss]⟩
  · rw [if_neg hss]
    unfold Table.largestContiguousAllocatable at hv
    cases hranges : t.allocatableRanges with
    | none => rw [hranges] at hv; cases hv
    | some rs =>
      rw [hranges] at hv
      have hv' : rs.foldl (fun acc r => if acc < r.size then r.size else acc) 0 = v :=
        Option.some.inj hv
      have hnone : ∀ r ∈ rs, ¬ size ≤ r.size := by
        intro r hr hle
        have := mem_size_le_foldl_max rs 0 r hr
        omega
      refine ⟨.noSpace, ?_⟩
      simp only [foldl_bestfit_init rs size ⟨0, 0, 0, 0⟩ hnone]
      rfl

/-- C3 witness: the three-partition table `tA3` has largest contiguous
allocatable size 2143272448; asking for one byte more fails and leaves
the table unchanged. -/
theorem allocatePartition_space_exhausted_witness :
    tA3.largestContiguousAllocatable = some 2143272448 ∧ 2143272448 < 2143272449 ∧
    ∃ e, tA3.allocatePartition 2143272449 [] guidT guidA 0 = some (tA3, .error e) :=
  ⟨by decide, by decide,
    allocatePartition_space_exhausted tA3 2143272449 2143272448 [] guidT guidA 0
      (by decide) (by decide)⟩

/-- C4: on the table `[vacant, pA2, pA3]` (reached from `New` by three
allocations and one deletion), allocating 1 MiB reuses the vacant slot
before the chosen range's index: the created entry (equal to `pA1`) is
stored at 1-based position 1, but the call returns 2.  The claim that the
returned integer is the created entry's actual 1-based position fails. -/
theorem allocatePartition_reused_slot_number_mismatch :
    tA4.allocatePartition 1048576 [] guidT guidA 0 = some (tA3, .ok (2, pA1)) ∧
    tA3.entries.getD 0 none = some pA1 ∧
    tA3.entries.getD 1 none = some pA2 ∧
    pA1 ≠ pA2 := by decide

/-- C10: from `New`, allocate three 1 MiB partitions, delete the first
two; the state has two consecutive vacant slots before an allocated
entry, and every operation that walks the free ranges then dereferences a
vacant (`nil`) entry — modelled as `none` — instead of returning a value
or an error. -/
theorem free_range_walk_nil_dereference :
    Table.new devA optsA guidA = .ok tA0 ∧
    tA0.allocatePartition 1048576 [] guidT guidA 0 = some (tA1, .ok (1, pA1)) ∧
    tA1.allocatePartition 1048576 [] guidT guidA 0 = some (tA2, .ok (2, pA2)) ∧
    tA2.allocatePartition 1048576 [] guidT guidA 0 = some (tA3, .ok (3, pA3)) ∧
    tA3.deletePartition 0 = .ok tA4 ∧
    tA4.deletePartition 1 = .ok tA5 ∧
    tA5.allocatableRanges = none ∧
    tA5.largestContiguousAllocatable = none ∧
    tA5.allocatePartition 1048576 [] guidT guidA 0 = none ∧
    tA5.availablePartitionGrowth 2 = none ∧
    tA5.growPartition 2 512 = none :=
  ⟨by decide, by decide, by decide, by decide, by decide, by decide, by decide, by decide,
    by decide, by decide, by decide⟩

/-! ## Claim theorems: probe chain policy and magic buffer size -/

/-- C7 counterexample: a matched prober whose Probe fails with an I/O
error does not abort the chain — the next matched prober is tried and its
successful result is reported. -/
theorem probe_chain_error_not_aborting :
    infoProbe infoA (fun _ => 0) [proberFailingA, proberSucceedingA] 0 1024 =
        .ok (some 42) ∧
    chainLoop (magicMatches [proberFailingA, proberSucceedingA]
        (readAt (fun _ => 0) 0 16)) = some 42 := by decide

/-- C7 amended: a matched prober's I/O error is skipped exactly like a
negative answer — the next matched prober is tried — and the chain
reports the first matched prober whose Probe succeeds. -/
theorem probe_chain_skips_failures {R : Type} (pre post : List (Magic × Prober R))
    (m : Magic) (p : Prober R) (r : R)
    (hpre : ∀ q ∈ pre, skippedOutcome q.2.outcome = true)
    (hp : p.outcome = .ok (some r)) :
    chainLoop (pre ++ (m, p) :: post) = some r := by
  induction pre with
  | nil => simp only [List.nil_append, chainLoop, hp]
  | cons q pre ih =>
    have hq := hpre q (List.mem_cons_self q pre)
    have hrest : ∀ q' ∈ pre, skippedOutcome q'.2.outcome = true := fun q' hq' =>
      hpre q' (List.mem_cons_of_mem q hq')
    simp only [List.cons_append, chainLoop]
    cases houtcome : q.2.outcome with
    | error e => exact ih hrest
    | ok o =>
      cases o with
      | none => exact ih hrest
      | some r' => rw [houtcome] at hq; cases hq

/-- C7 amended, witness: the failing prober is skipped and the succeeding
prober's result is reported. -/
theorem probe_chain_skips_failures_witness :
    (∀ q ∈ [(nullMagic, proberFailingA)], skippedOutcome q.2.outcome = true) ∧
    proberSucceedingA.outcome = .ok (some 42) ∧
    chainLoop ([(nullMagic, proberFailingA)] ++
      (nullMagic, proberSucceedingA) :: []) = some 42 :=
  ⟨by decide, by decide,
    probe_chain_skips_failures [(nullMagic, proberFailingA)] [] nullMagic
      proberSucceedingA 42 (by decide) (by decide)⟩

/-- C9: for a probe over a range of `length` bytes at least the chain's
maximum magic size, the magic buffer holds exactly
`min(max(maxMagicSize, ioSize), length)` bytes — never more than
`max(maxMagicSize, ioSize)` and never more than the range — and
`Info.probe` feeds exactly that buffer to the magic matching. -/
theorem probe_magic_buffer_bound {R : Type} (i : ProbeInfo) (dev : Nat → Nat)
    (chain : List (Prober R)) (offset length : Nat)
    (hM : maxMagicSize chain ≤ length) (hB : offset + length ≤ i.size) :
    magicReadSize (maxMagicSize chain) i.ioSize length =
        min (max (maxMagicSize chain) i.ioSize) length ∧
    (readAt dev offset (magicReadSize (maxMagicSize chain) i.ioSize length)).length ≤
        max (maxMagicSize chain) i.ioSize ∧
    (readAt dev offset (magicReadSize (maxMagicSize chain) i.ioSize length)).length ≤
        length ∧
    infoProbe i dev chain offset length =
      .ok (chainLoop (magicMatches chain
        (readAt dev offset (min (max (maxMagicSize chain) i.ioSize) length)))) := by
  have hsize : magicReadSize (maxMagicSize chain) i.ioSize length =
      min (max (maxMagicSize chain) i.ioSize) length := by
    unfold magicReadSize
    split <;> omega
  refine ⟨hsize, ?_, ?_, ?_⟩
  · rw [hsize]
    simp only [readAt, List.length_map, List.length_range]
    omega
  · rw [hsize]
    simp only [readAt, List.length_map, List.length_range]
    omega
  · unfold infoProbe
    rw [if_neg (by omega), if_neg (by omega), hsize]

/-- C9 witness: a concrete probe run where the buffer size is
`min(max(0, 16), 1024) = 16`. -/
theorem probe_magic_buffer_bound_witness :
    maxMagicSize [proberSucceedingA] ≤ 1024 ∧ 0 + 1024 ≤ infoA.size ∧
    magicReadSize (maxMagicSize [proberSucceedingA]) infoA.ioSize 1024 =
      min (max (maxMagicSize [proberSucceedingA]) infoA.ioSize) 1024 ∧
    (readAt (fun _ => 0) 0
        (magicReadSize (maxMagicSize [proberSucceedingA]) infoA.ioSize 1024)).length ≤
      max (maxMagicSize [proberSucceedingA]) infoA.ioSize :=
  ⟨by decide, by decide,
    (probe_magic_buffer_bound infoA (fun _ => 0) [proberSucceedingA] 0 1024
      (by decide) (by decide)).1,
    (probe_magic_buffer_bound infoA (fun _ => 0) [proberSucceedingA] 0 1024
      (by decide) (by decide)).2.1⟩

/-! ## Claim theorem: kernel partition-table synchronization -/

/-! ## Claim theorems: GPT header validation -/

set_option maxRecDepth 4000 in
/-- C6: a backup-style header read at LBA 100 whose `last_usable_lba`
field is also 100 (usable range [34, 100]) passes the full validation —
the source checks only the open interval
(`firstUsableLBA < lba && lba < lastUsableLBA`), so a header whose own
LBA equals `first_usable_lba` or `last_usable_lba` is accepted, while the
claim (and the source's own comment, "header should be outside the usable
range") requires rejection. -/
theorem readHeader_accepts_lba_on_usable_boundary :
    le64Get hdrB 24 = 100 ∧ le64Get hdrB 40 = 34 ∧ le64Get hdrB 48 = 100 ∧
    readAt devB (100 * 96) 96 = hdrB ∧
    (readHeader devB 96 100 100).isSome = true := by decide

set_option maxRecDepth 4000 in
/-- C5 counterexample: a header whose `header_size` field is 93 (within
[92, sector size 96]) is accepted by validation although its stored CRC
differs from the CRC32 over its first `header_size` bytes with the CRC
field zeroed — the source always checksums the first 92 bytes. -/
theorem readHeader_crc_ignores_header_size :
    le32Get hdrC 12 = 93 ∧ headerLength ≤ 93 ∧ 93 ≤ 96 ∧
    readAt devC (1 * 96) 96 = hdrC ∧
    (readHeader devC 96 1 100).isSome = true ∧
    le32Get hdrC 16 = headerChecksum hdrC ∧
    le32Get hdrC 16 ≠ headerChecksumSpec hdrC := by decide

/-- C5 amended: whenever `ReadHeader` accepts a header its `header_size`
field lies in [92, sector size] and the stored `header_crc32` equals the
CRC32 over the first 92 bytes (HEADER_SIZE) of the header with the 4-byte
CRC field zeroed, regardless of the `header_size` value. -/
theorem readHeader_checks_crc_over_92_bytes (dev : Nat → Nat) (ss lba lastLBA : Nat)
    (h : (readHeader dev ss lba lastLBA).isSome = true) :
    headerLength ≤ le32Get (readAt dev (lba * ss) ss) 12 ∧
    le32Get (readAt dev (lba * ss) ss) 12 ≤ ss ∧
    le32Get (readAt dev (lba * ss) ss) 16 = headerChecksum (readAt dev (lba * ss) ss) := by
  simp only [readHeader] at h
  split at h
  next => simp at h
  next =>
    split at h
    next => simp at h
    next hsize =>
      split at h
      next => simp at h
      next hcrc =>
        exact ⟨by omega, by omega, not_not.mp hcrc⟩

set_option maxRecDepth 4000 in
/-- C5 amended, witness: a concrete accepted header with header_size
92. -/
theorem readHeader_checks_crc_over_92_bytes_witness :
    (readHeader devD 96 1 100).isSome = true ∧
    (headerLength ≤ le32Get (readAt devD (1 * 96) 96) 12 ∧
      le32Get (readAt devD (1 * 96) 96) 12 ≤ 96 ∧
      le32Get (readAt devD (1 * 96) 96) 16 = headerChecksum (readAt devD (1 * 96) 96)) :=
  ⟨by decide, readHeader_checks_crc_over_92_bytes devD 96 1 100 (by decide)⟩

/-- C8: syncing the table `[pA1, vacant]` against a kernel that knows two
partitions crashes: after the delete of partition 2 succeeds, the source
unconditionally issues an add notification computed from the in-memory
entry, dereferencing the vacant (`nil`) entry 2 — the claim that an add
is issued only for existing entries and that the synchronization never
crashes fails. -/
theorem syncKernel_nil_dereference :
    syncKernel [some pA1, none] 512 kernelA =
      (.nilPanic, [.del 1, .add 1 1048576 1048576, .del 2]) := by decide

/-! ## Byte-level helper lemmas for the write/read round trip -/

/-- In-range `putBytesAt` preserves the buffer length. -/
theorem putBytesAt_length (s v : List Nat) (off : Nat) (h : off + v.length ≤ s.length) :
    (putBytesAt s off v).length = s.length := by
  unfold putBytesAt
  simp only [List.length_append, List.length_take, List.length_drop]
  omega

/-- `putBytesAt` at an append boundary. -/
theorem putBytesAt_boundary (a b v : List Nat) :
    putBytesAt (a ++ b) a.length v = a ++ (v ++ b.drop v.length) := by
  unfold putBytesAt
  rw [List.take_left, ← List.drop_drop, List.drop_left, List.append_assoc]

/-- Indexing past an appended prefix. -/
theorem getD_append_shift (d : Nat) (a b : List Nat) (k : Nat) :
    (a ++ b).getD (a.length + k) d = b.getD k d := by
  rw [List.getD_append_right a b d (a.length + k) (by omega)]
  congr 1
  omega

/-- `le64Get` at an append boundary. -/
theorem le64Get_append (a b : List Nat) : le64Get (a ++ b) a.length = le64Get b 0 := by
  unfold le64Get
  rw [List.getD_append_right a b 0 a.length (Nat.le_refl _),
    getD_append_shift 0 a b 1, getD_append_shift 0 a b 2, getD_append_shift 0 a b 3,
    getD_append_shift 0 a b 4, getD_append_shift 0 a b 5, getD_append_shift 0 a b 6,
    getD_append_shift 0 a b 7, Nat.sub_self]

/-- `le32Get` at an append boundary. -/
theorem le32Get_append (a b : List Nat) : le32Get (a ++ b) a.length = le32Get b 0 := by
  unfold le32Get
  rw [List.getD_append_right a b 0 a.length (Nat.le_refl _),
    getD_append_shift 0 a b 1, getD_append_shift 0 a b 2, getD_append_shift 0 a b 3,
    Nat.sub_self]

/-- Reading back a stored little-endian 64-bit value. -/
theorem le64Get_le64Bytes (v : Nat) (r : List Nat) :
    le64Get (le64Bytes v ++ r) 0 = v % 2 ^ 64 := by
  show v % 256 + 2 ^ 8 * (v / 2 ^ 8 % 256) + 2 ^ 16 * (v / 2 ^ 16 % 256) +
    2 ^ 24 * (v / 2 ^ 24 % 256) + 2 ^ 32 * (v / 2 ^ 32 % 256) + 2 ^ 40 * (v / 2 ^ 40 % 256) +
    2 ^ 48 * (v / 2 ^ 48 % 256) + 2 ^ 56 * (v / 2 ^ 56 % 256) = v % 2 ^ 64
  omega

/-- Reading back a stored little-endian 32-bit value. -/
theorem le32Get_le32Bytes (v : Nat) (r : List Nat) :
    le32Get (le32Bytes v ++ r) 0 = v % 2 ^ 32 := by
  show v % 256 + 2 ^ 8 * (v / 2 ^ 8 % 256) + 2 ^ 16 * (v / 2 ^ 16 % 256) +
    2 ^ 24 * (v / 2 ^ 24 % 256) = v % 2 ^ 32
  omega

/-- `readAt` returns as many bytes as asked. -/
theorem readAt_length (dev : Nat → Nat) (off len : Nat) :
    (readAt dev off len).length = len := by
  unfold readAt
  simp

/-- Reading every index of a list reproduces it. -/
theorem map_range_getD : ∀ (l : List Nat),
    (List.range l.length).map (fun i => l.getD i 0) = l
  | [] => rfl
  | x :: xs => by
    rw [List.length_cons, List.range_succ_eq_map, List.map_cons, List.map_map]
    congr 1
    refine Eq.trans (List.map_congr_left ?_) (map_range_getD xs)
    intro i _
    rfl

/-- Reading back exactly the bytes just written. -/
theorem readAt_writeAt_self (d : Nat → Nat) (off : Nat) (data : List Nat) :
    readAt (writeAt d off data) off data.length = data := by
  unfold readAt writeAt
  refine Eq.trans (List.map_congr_left ?_) (map_range_getD data)
  intro i hi
  rw [List.mem_range] at hi
  dsimp only
  rw [if_pos ⟨by omega, by omega⟩]
  congr 1
  omega

/-- A write does not affect reads from a disjoint region. -/
theorem readAt_writeAt_disjoint (d : Nat → Nat) (off off' len : Nat) (data : List Nat)
    (h : off' + len ≤ off ∨ off + data.length ≤ off') :
    readAt (writeAt d off data) off' len = readAt d off' len := by
  unfold readAt writeAt
  refine List.map_congr_left ?_
  intro i hi
  rw [List.mem_range] at hi
  dsimp only
  rw [if_neg (by omega)]

/-- One CRC bit step stays below 2^32. -/
theorem crc32Step_lt (c : Nat) (h : c < 2 ^ 32) : crc32Step c < 2 ^ 32 := by
  unfold crc32Step crc32Poly
  split
  · exact Nat.xor_lt_two_pow (by omega) (by norm_num)
  · omega

/-- One CRC byte step stays below 2^32. -/
theorem crc32Byte_lt (c b : Nat) (h : c < 2 ^ 32) : crc32Byte c b < 2 ^ 32 := by
  unfold crc32Byte
  have h0 : c ^^^ b % 256 < 2 ^ 32 :=
    Nat.xor_lt_two_pow h (by have := Nat.mod_lt b (by norm_num : 0 < 256); omega)
  have hiter : ∀ n x, x < 2 ^ 32 → crc32Step^[n] x < 2 ^ 32 := by
    intro n
    induction n with
    | zero => intro x hx; simpa using hx
    | succ n ih =>
      intro x hx
      rw [Function.iterate_succ_apply]
      exact ih _ (crc32Step_lt x hx)
  exact hiter 8 _ h0

/-- The CRC state stays below 2^32. -/
theorem crc32Update_lt : ∀ (l : List Nat) (c : Nat), c < 2 ^ 32 → crc32Update c l < 2 ^ 32
  | [], _, h => h
  | b :: rest, c, h => by
    unfold crc32Update
    dsimp only
    split <;> exact crc32Update_lt rest _ (crc32Byte_lt c b h)

/-- `crc32` values fit in 32 bits. -/
theorem crc32_lt (l : List Nat) : crc32 l < 2 ^ 32 := by
  unfold crc32
  exact Nat.xor_lt_two_pow (crc32Update_lt l _ (by norm_num)) (by norm_num)

/-- Length of `le64Bytes`. -/
theorem le64Bytes_length (v : Nat) : (le64Bytes v).length = 8 := rfl

/-- Length of `le32Bytes`. -/
theorem le32Bytes_length (v : Nat) : (le32Bytes v).length = 4 := rfl

/-- Length of the GUID swap (16-byte input). -/
theorem uuidToGUID_length (u : List Nat) (h : 16 ≤ u.length) :
    (uuidToGUID u).length = 16 := by
  unfold uuidToGUID
  simp only [List.length_append, List.length_cons, List.length_take, List.length_drop,
    List.length_nil]
  omega

/-- The UTF-16LE encoding is two bytes per code unit. -/
theorem encodeNameUnits_length : ∀ (name : List Nat),
    (encodeNameUnits name).length = 2 * name.length
  | [] => rfl
  | u :: rest => by
    unfold encodeNameUnits
    rw [List.flatMap_cons, List.length_append]
    have := encodeNameUnits_length rest
    unfold encodeNameUnits at this
    rw [this]
    simp only [List.length_cons, List.length_nil, List.length_cons]
    omega

/-- A serialized slot is exactly 128 bytes. -/
theorem serializeSlot_length (s : Option Partition)
    (h : ∀ e, s = some e → e.typeGUID.length = 16 ∧ e.partGUID.length = 16 ∧
      e.name.length ≤ 36) :
    (serializeSlot s).length = 128 := by
  cases s with
  | none => simp [serializeSlot]
  | some e =>
    obtain ⟨h1, h2, h3⟩ := h e rfl
    unfold serializeSlot
    simp only [List.length_append, uuidToGUID_length e.typeGUID (by omega),
      uuidToGUID_length e.partGUID (by omega), le64Bytes_length, List.length_replicate,
      encodeNameUnits_length]
    omega

/-- Length of a `flatMap` over `range` with fixed-width chunks. -/
theorem flatMap_range_length (f : Nat → List Nat) (w : Nat) (hw : ∀ i, (f i).length = w) :
    ∀ n, ((List.range n).flatMap f).length = n * w := by
  intro n
  induction n with
  | zero => simp
  | succ n ih =>
    rw [List.range_succ, List.flatMap_append, List.length_append, ih]
    simp only [List.flatMap_cons, List.flatMap_nil, List.append_nil, hw n, Nat.succ_mul]

/-- Reading chunk `i` back out of a fixed-width `flatMap` over `range`. -/
theorem flatMap_range_chunk (f : Nat → List Nat) (w : Nat) (hw : ∀ i, (f i).length = w) :
    ∀ n i, i < n → getBytes ((List.range n).flatMap f) (i * w) w = f i := by
  intro n
  induction n with
  | zero => intro i h; exact absurd h (Nat.not_lt_zero i)
  | succ n ih =>
    intro i hi
    rw [List.range_succ, List.flatMap_append]
    have hlen := flatMap_range_length f w hw n
    rcases Nat.lt_or_ge i n with h | h
    · unfold getBytes
      have hmul : (i + 1) * w ≤ n * w := Nat.mul_le_mul_right w (by omega)
      rw [Nat.succ_mul] at hmul
      rw [List.drop_append_of_le_length (by rw [hlen]; exact Nat.mul_le_mul_right w (by omega)),
        List.take_append_of_le_length (by simp only [List.length_drop, hlen]; omega)]
      exact ih i h
    · have hieq : i = n := by omega
      subst hieq
      unfold getBytes
      rw [List.drop_left' (by rw [hlen]), List.flatMap_cons, List.flatMap_nil,
        List.append_nil, List.take_of_length_le (by rw [hw i])]

/-- The mixed-endian GUID swap is an involution on 16-byte values. -/
theorem guidToUUID_uuidToGUID (g : List Nat) (hg : g.length = 16) :
    guidToUUID (uuidToGUID g) = g := by
  rcases g with _ | ⟨b0, g⟩; · simp at hg
  rcases g with _ | ⟨b1, g⟩; · simp at hg
  rcases g with _ | ⟨b2, g⟩; · simp at hg
  rcases g with _ | ⟨b3, g⟩; · simp at hg
  rcases g with _ | ⟨b4, g⟩; · simp at hg
  rcases g with _ | ⟨b5, g⟩; · simp at hg
  rcases g with _ | ⟨b6, g⟩; · simp at hg
  rcases g with _ | ⟨b7, g⟩; · simp at hg
  rcases g with _ | ⟨b8, g⟩; · simp at hg
  rcases g with _ | ⟨b9, g⟩; · simp at hg
  rcases g with _ | ⟨b10, g⟩; · simp at hg
  rcases g with _ | ⟨b11, g⟩; · simp at hg
  rcases g with _ | ⟨b12, g⟩; · simp at hg
  rcases g with _ | ⟨b13, g⟩; · simp at hg
  rcases g with _ | ⟨b14, g⟩; · simp at hg
  rcases g with _ | ⟨b15, g⟩; · simp at hg
  have hnil : g = [] := List.eq_nil_of_length_eq_zero (by simpa using hg)
  subst hnil
  rfl

/-- A nonzero 16-byte GUID stays nonzero under the swap. -/
theorem uuidToGUID_ne_zero (g : List Nat) (hg : g.length = 16)
    (h : g ≠ List.replicate 16 0) : uuidToGUID g ≠ List.replicate 16 0 := by
  intro he
  apply h
  have h2 := congrArg guidToUUID he
  rw [guidToUUID_uuidToGUID g hg] at h2
  rw [h2]
  decide

/-- Decoding the encoded code units (plus a tail) gives the units back. -/
theorem bytesToUnits_encode (z : List Nat) : ∀ (u : List Nat), (∀ x ∈ u, x < 2 ^ 16) →
    bytesToUnits (encodeNameUnits u ++ z) = u ++ bytesToUnits z
  | [], _ => by simp [encodeNameUnits]
  | x :: rest, h => by
    have h1 : x % 256 + 256 * (x / 256 % 256) = x := by
      have := h x (List.mem_cons_self x rest)
      omega
    have h3 := bytesToUnits_encode z rest fun y hy => h y (List.mem_cons_of_mem _ hy)
    unfold encodeNameUnits at h3 ⊢
    rw [List.flatMap_cons]
    simp only [List.cons_append, List.nil_append, List.append_assoc]
    rw [show bytesToUnits (x % 256 :: x / 256 % 256 ::
        ((rest.flatMap fun u => [u % 256, u / 256 % 256]) ++ z)) =
        (x % 256 + 256 * (x / 256 % 256)) ::
          bytesToUnits ((rest.flatMap fun u => [u % 256, u / 256 % 256]) ++ z) from rfl,
      h1, h3]

/-- Decoding NUL padding gives NUL code units. -/
theorem bytesToUnits_replicate_zero : ∀ k,
    bytesToUnits (List.replicate (2 * k) 0) = List.replicate k 0
  | 0 => rfl
  | k + 1 => by
    rw [show 2 * (k + 1) = 2 * k + 1 + 1 by omega, List.replicate_succ,
      List.replicate_succ (n := 2 * k)]
    have h2 : bytesToUnits (0 :: 0 :: List.replicate (2 * k) 0) =
        (0 + 256 * 0) :: bytesToUnits (List.replicate (2 * k) 0) := rfl
    rw [h2, bytesToUnits_replicate_zero k]
    rfl

/-- Dropping leading zeros of a zero block. -/
theorem dropWhile_zero_replicate : ∀ (k : Nat) (t : List Nat),
    List.dropWhile (fun u => decide (u = 0)) (List.replicate k 0 ++ t) =
      List.dropWhile (fun u => decide (u = 0)) t
  | 0, _ => rfl
  | k + 1, t => by
    rw [List.replicate_succ, List.cons_append, List.dropWhile_cons_of_pos (by simp)]
    exact dropWhile_zero_replicate k t

/-- Trailing-NUL trimming removes exactly the padding when the name has
no trailing NUL unit. -/
theorem trimTrailingZeros_append_zeros (u : List Nat) (k : Nat)
    (h : u.getLast? ≠ some 0) :
    trimTrailingZeros (u ++ List.replicate k 0) = u := by
  unfold trimTrailingZeros
  rw [List.reverse_append, List.reverse_replicate, dropWhile_zero_replicate]
  cases hrev : u.reverse with
  | nil =>
    have : u = [] := by simpa using congrArg List.reverse hrev
    subst this
    rfl
  | cons a t =>
    have ha : a ≠ 0 := by
      intro ha0
      apply h
      rw [← List.head?_reverse, hrev, ha0]
      rfl
    rw [List.dropWhile_cons_of_neg (by simpa using ha), ← hrev, List.reverse_reverse]

/-- `le64Get` at a known prefix length. -/
theorem le64Get_at (a b : List Nat) (k : Nat) (h : a.length = k) :
    le64Get (a ++ b) k = le64Get b 0 := by
  rw [← h]
  exact le64Get_append a b

/-- `le32Get` at a known prefix length. -/
theorem le32Get_at (a b : List Nat) (k : Nat) (h : a.length = k) :
    le32Get (a ++ b) k = le32Get b 0 := by
  rw [← h]
  exact le32Get_append a b

/-- `getBytes` at offset 0 is `take`. -/
theorem getBytes_zero (s : List Nat) (n : Nat) : getBytes s 0 n = s.take n := by
  unfold getBytes
  rw [List.drop_zero]

/-- `getBytes` at a known prefix length. -/
theorem getBytes_at (a b : List Nat) (k n : Nat) (h : a.length = k) :
    getBytes (a ++ b) k n = b.take n := by
  subst h
  unfold getBytes
  rw [List.drop_left]

/-- A successful positional read locates a member. -/
theorem mem_of_getD_some {α : Type} : ∀ (l : List (Option α)) (i : Nat) (e : α),
    l.getD i none = some e → some e ∈ l
  | [], i, e, h => by
    rw [getD_of_len_le none [] i (Nat.zero_le i)] at h
    cases h
  | x :: xs, 0, e, h => List.mem_cons.mpr (Or.inl h.symm)
  | _ :: xs, i + 1, e, h => List.mem_cons_of_mem _ (mem_of_getD_some xs i e h)

/-- Decoding a serialized slot gives the slot back (round-trip core). -/
theorem decodeEntry_serializeSlot (fu lu : Nat) (hfu : 0 < fu) (s : Option Partition)
    (hs : ∀ e, s = some e → SlotOK fu lu e) :
    decodeEntry fu lu (serializeSlot s) = s := by
  cases s with
  | none =>
    have h32 : le64Get (serializeSlot none) 32 = 0 := by decide
    unfold decodeEntry
    rw [if_pos (Or.inl (by rw [h32]; exact hfu))]
  | some e =>
    obtain ⟨hb1, hb2, hb3, hb4, hb5, hb6, hg1, hg2, _, _, hgz, hn1, hn2, hn3⟩ := hs e rfl
    have hA : (uuidToGUID e.typeGUID).length = 16 := uuidToGUID_length _ (by omega)
    have hB : (uuidToGUID e.partGUID).length = 16 := uuidToGUID_length _ (by omega)
    have hN : (encodeNameUnits e.name).length = 2 * e.name.length := encodeNameUnits_length _
    have h32 : le64Get (serializeSlot (some e)) 32 = e.firstLBA := by
      rw [show serializeSlot (some e) =
          (uuidToGUID e.typeGUID ++ uuidToGUID e.partGUID) ++
            (le64Bytes e.firstLBA ++ (le64Bytes e.lastLBA ++ (le64Bytes e.flags ++
              (encodeNameUnits e.name ++
                List.replicate (72 - (encodeNameUnits e.name).length) 0)))) from by
        simp [serializeSlot, List.append_assoc]]
      rw [le64Get_at _ _ 32 (by simp [hA, hB]), le64Get_le64Bytes]
      omega
    have h40 : le64Get (serializeSlot (some e)) 40 = e.lastLBA := by
      rw [show serializeSlot (some e) =
          ((uuidToGUID e.typeGUID ++ uuidToGUID e.partGUID) ++ le64Bytes e.firstLBA) ++
            (le64Bytes e.lastLBA ++ (le64Bytes e.flags ++
              (encodeNameUnits e.name ++
                List.replicate (72 - (encodeNameUnits e.name).length) 0))) from by
        simp [serializeSlot, List.append_assoc]]
      rw [le64Get_at _ _ 40 (by simp [hA, hB, le64Bytes_length]), le64Get_le64Bytes]
      omega
    have h48 : le64Get (serializeSlot (some e)) 48 = e.flags := by
      rw [show serializeSlot (some e) =
          (((uuidToGUID e.typeGUID ++ uuidToGUID e.partGUID) ++ le64Bytes e.firstLBA) ++
              le64Bytes e.lastLBA) ++
            (le64Bytes e.flags ++ (encodeNameUnits e.name ++
              List.replicate (72 - (encodeNameUnits e.name).length) 0)) from by
        simp [serializeSlot, List.append_assoc]]
      rw [le64Get_at _ _ 48 (by simp [hA, hB, le64Bytes_length]), le64Get_le64Bytes]
      omega
    have hg0 : getBytes (serializeSlot (some e)) 0 16 = uuidToGUID e.typeGUID := by
      rw [show serializeSlot (some e) =
          uuidToGUID e.typeGUID ++ (uuidToGUID e.partGUID ++
            (le64Bytes e.firstLBA ++ (le64Bytes e.lastLBA ++ (le64Bytes e.flags ++
              (encodeNameUnits e.name ++
                List.replicate (72 - (encodeNameUnits e.name).length) 0))))) from by
        simp [serializeSlot, List.append_assoc]]
      rw [getBytes_zero, List.take_left' hA]
    have hg16 : getBytes (serializeSlot (some e)) 16 16 = uuidToGUID e.partGUID := by
      rw [show serializeSlot (some e) =
          uuidToGUID e.typeGUID ++ (uuidToGUID e.partGUID ++
            (le64Bytes e.firstLBA ++ (le64Bytes e.lastLBA ++ (le64Bytes e.flags ++
              (encodeNameUnits e.name ++
                List.replicate (72 - (encodeNameUnits e.name).length) 0))))) from by
        simp [serializeSlot, List.append_assoc]]
      rw [getBytes_at _ _ 16 16 hA, List.take_left' hB]
    have hname : getBytes (serializeSlot (some e)) 56 72 =
        encodeNameUnits e.name ++
          List.replicate (72 - (encodeNameUnits e.name).length) 0 := by
      rw [show serializeSlot (some e) =
          ((((uuidToGUID e.typeGUID ++ uuidToGUID e.partGUID) ++ le64Bytes e.firstLBA) ++
              le64Bytes e.lastLBA) ++ le64Bytes e.flags) ++
            (encodeNameUnits e.name ++
              List.replicate (72 - (encodeNameUnits e.name).length) 0) from by
        simp [serializeSlot, List.append_assoc]]
      rw [getBytes_at _ _ 56 72 (by simp [hA, hB, le64Bytes_length])]
      refine List.take_of_length_le ?_
      simp only [List.length_append, List.length_replicate, hN]
      omega
    have hname2 : trimTrailingZeros (bytesToUnits (encodeNameUnits e.name ++
        List.replicate (72 - (encodeNameUnits e.name).length) 0)) = e.name := by
      rw [show 72 - (encodeNameUnits e.name).length = 2 * (36 - e.name.length) from by
        rw [hN]; omega]
      rw [bytesToUnits_encode _ e.name hn2, bytesToUnits_replicate_zero]
      exact trimTrailingZeros_append_zeros e.name _ hn3
    unfold decodeEntry
    rw [h32, h40, h48, hg0, hg16, hname]
    rw [if_neg (by omega)]
    rw [if_neg (by simp only [beq_iff_eq]; exact uuidToGUID_ne_zero _ hg1 hgz)]
    rw [hname2, guidToUUID_uuidToGUID _ hg1, guidToUUID_uuidToGUID _ hg2]

/-- Positionally vacant lists are elementwise vacant. -/
theorem all_none_of_getD {α : Type} : ∀ (l : List (Option α)),
    (∀ i, i < l.length → l.getD i none = none) → ∀ x ∈ l, x = none
  | [], _, x, hx => absurd hx (List.not_mem_nil x)
  | y :: ys, h, x, hx => by
    rcases List.mem_cons.mp hx with h0 | h0
    · subst h0
      exact (h 0 (by simp)).symm ▸ rfl
    · exact all_none_of_getD ys (fun i hi => h (i + 1) (by simpa using Nat.succ_lt_succ hi))
        x h0

/-- `filterMap id` of an all-vacant list is empty. -/
theorem filterMap_id_nil {α : Type} : ∀ (l : List (Option α)),
    (∀ x ∈ l, x = none) → l.filterMap id = []
  | [], _ => rfl
  | y :: ys, h => by
    rw [List.filterMap_cons, h y (List.mem_cons_self y ys)]
    exact filterMap_id_nil ys fun x hx => h x (List.mem_cons_of_mem y hx)

/-- Indexing into a `drop`. -/
theorem getD_drop {α : Type} (d : α) : ∀ (l : List α) (m j : Nat),
    (l.drop m).getD j d = l.getD (m + j) d
  | l, 0, j => by rw [Nat.zero_add, List.drop_zero]
  | [], m + 1, j => by
    simp only [List.drop_nil]
    rw [getD_of_len_le d [] j (Nat.zero_le j), getD_of_len_le d [] (m + 1 + j) (Nat.zero_le _)]
  | x :: xs, m + 1, j => by
    show (xs.drop m).getD j d = (x :: xs).getD (m + 1 + j) d
    rw [getD_drop d xs m j, show m + 1 + j = (m + j) + 1 from by omega]
    rfl

/-- Characterization of the `lastFilledIdx` fold. -/
theorem lastIdx_fold (p : Nat → Bool) : ∀ (n : Nat) (a : Option Nat),
    ((List.range n).foldl (fun acc i => if p i then some i else acc) a = a ∧
      ∀ i, i < n → p i = false) ∨
    (∃ k, (List.range n).foldl (fun acc i => if p i then some i else acc) a = some k ∧
      k < n ∧ p k = true ∧ ∀ j, k < j → j < n → p j = false) := by
  intro n
  induction n with
  | zero => intro a; exact Or.inl ⟨rfl, by omega⟩
  | succ n ih =>
    intro a
    rw [List.range_succ, List.foldl_append]
    simp only [List.foldl_cons, List.foldl_nil]
    by_cases hp : p n
    · right
      exact ⟨n, by rw [if_pos hp], by omega, hp, by omega⟩
    · rw [if_neg hp]
      rcases ih a with ⟨heq, hall⟩ | ⟨k, heq, hk, hpk, hafter⟩
      · left
        refine ⟨heq, fun i hi => ?_⟩
        rcases Nat.lt_succ_iff_lt_or_eq.mp hi with h | h
        · exact hall i h
        · subst h
          exact Bool.eq_false_iff.mpr hp
      · right
        refine ⟨k, heq, by omega, hpk, fun j hj1 hj2 => ?_⟩
        rcases Nat.lt_succ_iff_lt_or_eq.mp hj2 with h | h
        · exact hafter j hj1 h
        · subst h
          exact Bool.eq_false_iff.mpr hp

/-- If no slot is filled, every in-range read is vacant. -/
theorem lastFilledIdx_none (l : List (Option Partition)) (h : lastFilledIdx l = none) :
    ∀ i, i < l.length → l.getD i none = none := by
  intro i hi
  rcases lastIdx_fold (fun i => (l.getD i none).isSome) l.length none with ⟨_, hall⟩ |
    ⟨k, heq, _, _, _⟩
  · have := hall i hi
    cases hg : l.getD i none with
    | none => rfl
    | some e => rw [hg] at this; cases this
  · unfold lastFilledIdx at h
    rw [heq] at h
    cases h

/-- After the last filled slot everything is vacant. -/
theorem lastFilledIdx_some (l : List (Option Partition)) (k : Nat)
    (h : lastFilledIdx l = some k) :
    ∀ j, k < j → j < l.length → l.getD j none = none := by
  intro j hj1 hj2
  rcases lastIdx_fold (fun i => (l.getD i none).isSome) l.length none with ⟨heq, _⟩ |
    ⟨k', heq, _, _, hafter⟩
  · unfold lastFilledIdx at h
    rw [heq] at h
    cases h
  · unfold lastFilledIdx at h
    rw [heq] at h
    injection h with h
    subst h
    have := hafter j hj1 hj2
    cases hg : l.getD j none with
    | none => rfl
    | some e => rw [hg] at this; cases this

/-- The `Read` truncation keeps exactly the non-vacant entries. -/
theorem filterMap_truncAfterLastFilled (parts : List (Option Partition)) :
    (truncAfterLastFilled parts).filterMap id = parts.filterMap id := by
  unfold truncAfterLastFilled
  cases h : lastFilledIdx parts with
  | none =>
    rw [filterMap_id_nil parts (all_none_of_getD parts (lastFilledIdx_none parts h))]
    rfl
  | some k =>
    conv_rhs => rw [← List.take_append_drop (k + 1) parts]
    rw [List.filterMap_append]
    rw [filterMap_id_nil (parts.drop (k + 1)) ?_, List.append_nil]
    refine all_none_of_getD _ ?_
    intro i hi
    rw [getD_drop]
    refine lastFilledIdx_some parts k h (k + 1 + i) (by omega) ?_
    rw [List.length_drop] at hi
    omega

/-- Reading every index of `range m` gives the list padded with vacant
slots. -/
theorem map_range_getD_pad {α : Type} : ∀ (l : List (Option α)) (m : Nat), l.length ≤ m →
    (List.range m).map (fun i => l.getD i none) = l ++ List.replicate (m - l.length) none
  | [], m, _ => by
    simp only [List.nil_append, List.length_nil, Nat.sub_zero]
    have h1 : (List.range m).map (fun i => ([] : List (Option α)).getD i none) =
        (List.range m).map (fun _ => (none : Option α)) :=
      List.map_congr_left fun i _ => getD_of_len_le none [] i (Nat.zero_le i)
    rw [h1, List.map_const', List.length_range]
  | x :: xs, 0, h => by simp at h
  | x :: xs, m + 1, h => by
    rw [List.range_succ_eq_map, List.map_cons, List.map_map]
    have htail : ((List.range m).map ((fun i => (x :: xs).getD i none) ∘ Nat.succ)) =
        (List.range m).map (fun i => xs.getD i none) :=
      List.map_congr_left fun i _ => rfl
    rw [htail, map_range_getD_pad xs m (by simpa using h)]
    simp

/-- Padding with vacant slots does not change the partition list. -/
theorem filterMap_pad {α : Type} (l : List (Option α)) (r : Nat) :
    (l ++ List.replicate r none).filterMap id = l.filterMap id := by
  rw [List.filterMap_append,
    filterMap_id_nil (List.replicate r none) (fun x hx => List.eq_of_mem_replicate hx),
    List.append_nil]

/-- Indexing does not look past a `take`. -/
theorem getD_take {α : Type} (d : α) (s : List α) (k i : Nat) (h : i < k) :
    (s.take k).getD i d = s.getD i d := by
  rcases Nat.lt_or_ge i s.length with hi | hi
  · conv_rhs => rw [← List.take_append_drop k s]
    rw [List.getD_append _ _ _ _ (by rw [List.length_take]; omega)]
  · rw [getD_of_len_le d (s.take k) i (by rw [List.length_take]; omega),
      getD_of_len_le d s i hi]

/-- Indexing through an in-place byte store. -/
theorem getD_putBytesAt (s v : List Nat) (off i : Nat) (hoff : off ≤ s.length) :
    (putBytesAt s off v).getD i 0 =
      if off ≤ i ∧ i < off + v.length then v.getD (i - off) 0 else s.getD i 0 := by
  have htk : (s.take off).length = off := by rw [List.length_take]; omega
  have hav : (s.take off ++ v).length = off + v.length := by
    rw [List.length_append, htk]
  unfold putBytesAt
  split
  · rename_i hc
    rw [List.getD_append _ _ _ _ (by omega : i < (s.take off ++ v).length),
      List.getD_append_right (s.take off) v 0 i (by omega), htk]
  · rename_i hc
    rcases Nat.lt_or_ge i off with h1 | h1
    · rw [List.getD_append _ _ _ _ (by omega : i < (s.take off ++ v).length),
        List.getD_append _ _ _ _ (by omega : i < (s.take off).length),
        getD_take 0 s off i h1]
    · have h2 : off + v.length ≤ i := by omega
      rw [List.getD_append_right (s.take off ++ v) _ 0 i (by omega), hav, getD_drop]
      rw [show off + v.length + (i - (off + v.length)) = i from by omega]

/-- An in-place store leaves indices outside its range unchanged. -/
theorem getD_putBytesAt_out (s v : List Nat) (off i : Nat) (hoff : off ≤ s.length)
    (h : i < off ∨ off + v.length ≤ i) :
    (putBytesAt s off v).getD i 0 = s.getD i 0 := by
  rw [getD_putBytesAt s v off i hoff, if_neg (by omega)]

/-- A 64-bit read away from an in-place store is unchanged. -/
theorem le64Get_putBytesAt_out (s v : List Nat) (off k : Nat) (hoff : off ≤ s.length)
    (h : k + 8 ≤ off ∨ off + v.length ≤ k) :
    le64Get (putBytesAt s off v) k = le64Get s k := by
  unfold le64Get
  rw [getD_putBytesAt_out s v off k hoff (by omega),
    getD_putBytesAt_out s v off (k + 1) hoff (by omega),
    getD_putBytesAt_out s v off (k + 2) hoff (by omega),
    getD_putBytesAt_out s v off (k + 3) hoff (by omega),
    getD_putBytesAt_out s v off (k + 4) hoff (by omega),
    getD_putBytesAt_out s v off (k + 5) hoff (by omega),
    getD_putBytesAt_out s v off (k + 6) hoff (by omega),
    getD_putBytesAt_out s v off (k + 7) hoff (by omega)]

/-- A 32-bit read away from an in-place store is unchanged. -/
theorem le32Get_putBytesAt_out (s v : List Nat) (off k : Nat) (hoff : off ≤ s.length)
    (h : k + 4 ≤ off ∨ off + v.length ≤ k) :
    le32Get (putBytesAt s off v) k = le32Get s k := by
  unfold le32Get
  rw [getD_putBytesAt_out s v off k hoff (by omega),
    getD_putBytesAt_out s v off (k + 1) hoff (by omega),
    getD_putBytesAt_out s v off (k + 2) hoff (by omega),
    getD_putBytesAt_out s v off (k + 3) hoff (by omega)]

/-- Reading back a 64-bit field just stored in place. -/
theorem le64Get_putBytesAt_self (s : List Nat) (off m : Nat) (hoff : off ≤ s.length) :
    le64Get (putBytesAt s off (le64Bytes m)) off = m % 2 ^ 64 := by
  have htk : (s.take off).length = off := by rw [List.length_take]; omega
  unfold putBytesAt
  rw [List.append_assoc, le64Get_at (s.take off) _ off htk, le64Get_le64Bytes]

/-- Reading back a 32-bit field just stored in place. -/
theorem le32Get_putBytesAt_self (s : List Nat) (off m : Nat) (hoff : off ≤ s.length) :
    le32Get (putBytesAt s off (le32Bytes m)) off = m % 2 ^ 32 := by
  have htk : (s.take off).length = off := by rw [List.length_take]; omega
  unfold putBytesAt
  rw [List.append_assoc, le32Get_at (s.take off) _ off htk, le32Get_le32Bytes]

/-- Pointwise characterization of `getBytes`. -/
theorem getD_getBytes (s : List Nat) (o n i : Nat) (h : i < n) :
    (getBytes s o n).getD i 0 = s.getD (o + i) 0 := by
  unfold getBytes
  rw [getD_take 0 _ n i h, getD_drop]

/-- A `getBytes` slice keeps its requested length inside the buffer. -/
theorem getBytes_length (s : List Nat) (o n : Nat) (h : o + n ≤ s.length) :
    (getBytes s o n).length = n := by
  unfold getBytes
  rw [List.length_take, List.length_drop]
  omega

/-- Equality of byte lists from equal lengths and pointwise reads. -/
theorem ext_getD (a b : List Nat) (hl : a.length = b.length)
    (h : ∀ i, i < a.length → a.getD i 0 = b.getD i 0) : a = b := by
  refine List.ext_getElem hl ?_
  intro i h1 h2
  have hi := h i h1
  rwa [List.getD_eq_getElem?_getD, List.getD_eq_getElem?_getD,
    List.getElem?_eq_getElem h1, List.getElem?_eq_getElem h2, Option.getD_some,
    Option.getD_some] at hi

/-- A byte-range read away from an in-place store is unchanged. -/
theorem getBytes_putBytesAt_out (s v : List Nat) (off o n : Nat)
    (hv : off + v.length ≤ s.length) (hn : o + n ≤ s.length)
    (h : o + n ≤ off ∨ off + v.length ≤ o) :
    getBytes (putBytesAt s off v) o n = getBytes s o n := by
  have hplen : (putBytesAt s off v).length = s.length := putBytesAt_length s v off hv
  refine ext_getD _ _ ?_ ?_
  · rw [getBytes_length _ _ _ (by omega), getBytes_length _ _ _ hn]
  · intro i hi
    rw [getBytes_length _ _ _ (by omega)] at hi
    rw [getD_getBytes _ _ _ _ hi, getD_getBytes _ _ _ _ hi,
      getD_putBytesAt_out s v off (o + i) (by omega) (by omega)]

/-- Overwriting a freshly stored field with an equally long one. -/
theorem putBytesAt_take_putBytesAt (s v z : List Nat) (off k : Nat)
    (hlen : v.length = z.length) (h1 : off + v.length ≤ k) (h2 : k ≤ s.length) :
    putBytesAt ((putBytesAt s off v).take k) off z = putBytesAt (s.take k) off z := by
  have hplen : (putBytesAt s off v).length = s.length := putBytesAt_length s v off (by omega)
  have hlk : ((putBytesAt s off v).take k).length = k := by rw [List.length_take]; omega
  have hlk2 : (s.take k).length = k := by rw [List.length_take]; omega
  refine ext_getD _ _ ?_ ?_
  · rw [putBytesAt_length _ _ _ (by omega), putBytesAt_length _ _ _ (by omega), hlk, hlk2]
  · intro i hi
    rw [putBytesAt_length _ _ _ (by omega)] at hi
    rw [hlk] at hi
    rw [getD_putBytesAt _ _ _ _ (by omega), getD_putBytesAt _ _ _ _ (by omega)]
    split
    · rfl
    · rename_i hc
      rw [getD_take 0 _ k i hi, getD_take 0 s k i hi,
        getD_putBytesAt_out s v off i (by omega) (by omega)]

/-- Storing the header CRC does not change the checksum computed with the
CRC field zeroed. -/
theorem headerChecksum_putCrc (h3 : List Nat) (c : Nat) (h92 : 92 ≤ h3.length) :
    headerChecksum (putBytesAt h3 16 (le32Bytes c)) = headerChecksum h3 := by
  unfold headerChecksum
  rw [putBytesAt_take_putBytesAt h3 (le32Bytes c) [0, 0, 0, 0] 16 92 rfl
    (by rw [le32Bytes_length]; omega) h92]

/-- Length of the header template (sector-sized). -/
theorem headerTemplate_length (t : Table) (ecrc : Nat) (h : 92 ≤ t.sectorSize)
    (hg : 16 ≤ t.diskGUID.length) :
    (t.headerTemplate ecrc).length = t.sectorSize := by
  unfold Table.headerTemplate
  simp only [List.length_append, le64Bytes_length, le32Bytes_length, List.length_replicate,
    uuidToGUID_length t.diskGUID hg, headerLength]
  omega

/-- The header template's signature field. -/
theorem headerTemplate_sig (t : Table) (ecrc : Nat) :
    le64Get (t.headerTemplate ecrc) 0 = gptHeaderSignature := by
  rw [show t.headerTemplate ecrc = le64Bytes gptHeaderSignature ++
      (le32Bytes 0x00010000 ++ (le32Bytes headerLength ++ (le32Bytes 0 ++ (le32Bytes 0 ++
      (le64Bytes 0 ++ (le64Bytes 0 ++ (le64Bytes t.firstUsableLBA ++
      (le64Bytes t.lastUsableLBA ++ (uuidToGUID t.diskGUID ++ (le64Bytes 0 ++
      (le32Bytes numEntries ++ (le32Bytes entrySize ++ (le32Bytes ecrc ++
      List.replicate (t.sectorSize - headerLength) 0))))))))))))) from by
    simp [Table.headerTemplate, List.append_assoc]]
  rw [le64Get_le64Bytes]
  norm_num [gptHeaderSignature]

/-- The header template's header_size field (offset 12). -/
theorem headerTemplate_hsize (t : Table) (ecrc : Nat) :
    le32Get (t.headerTemplate ecrc) 12 = 92 := by
  rw [show t.headerTemplate ecrc = (le64Bytes gptHeaderSignature ++ le32Bytes 0x00010000) ++
      (le32Bytes headerLength ++ (le32Bytes 0 ++ (le32Bytes 0 ++
      (le64Bytes 0 ++ (le64Bytes 0 ++ (le64Bytes t.firstUsableLBA ++
      (le64Bytes t.lastUsableLBA ++ (uuidToGUID t.diskGUID ++ (le64Bytes 0 ++
      (le32Bytes numEntries ++ (le32Bytes entrySize ++ (le32Bytes ecrc ++
      List.replicate (t.sectorSize - headerLength) 0)))))))))))) from by
    simp [Table.headerTemplate, List.append_assoc]]
  rw [le32Get_at _ _ 12 (by simp [le64Bytes_length, le32Bytes_length]), le32Get_le32Bytes]
  norm_num [headerLength]

/-- The header template's first_usable_lba field (offset 40). -/
theorem headerTemplate_fu (t : Table) (ecrc : Nat) :
    le64Get (t.headerTemplate ecrc) 40 = t.firstUsableLBA % 2 ^ 64 := by
  rw [show t.headerTemplate ecrc = (le64Bytes gptHeaderSignature ++ le32Bytes 0x00010000 ++
      le32Bytes headerLength ++ le32Bytes 0 ++ le32Bytes 0 ++ le64Bytes 0 ++ le64Bytes 0) ++
      (le64Bytes t.firstUsableLBA ++
      (le64Bytes t.lastUsableLBA ++ (uuidToGUID t.diskGUID ++ (le64Bytes 0 ++
      (le32Bytes numEntries ++ (le32Bytes entrySize ++ (le32Bytes ecrc ++
      List.replicate (t.sectorSize - headerLength) 0))))))) from by
    simp [Table.headerTemplate, List.append_assoc]]
  rw [le64Get_at _ _ 40 (by simp [le64Bytes_length, le32Bytes_length]), le64Get_le64Bytes]

/-- The header template's last_usable_lba field (offset 48). -/
theorem headerTemplate_lu (t : Table) (ecrc : Nat) :
    le64Get (t.headerTemplate ecrc) 48 = t.lastUsableLBA % 2 ^ 64 := by
  rw [show t.headerTemplate ecrc = (le64Bytes gptHeaderSignature ++ le32Bytes 0x00010000 ++
      le32Bytes headerLength ++ le32Bytes 0 ++ le32Bytes 0 ++ le64Bytes 0 ++ le64Bytes 0 ++
      le64Bytes t.firstUsableLBA) ++
      (le64Bytes t.lastUsableLBA ++ (uuidToGUID t.diskGUID ++ (le64Bytes 0 ++
      (le32Bytes numEntries ++ (le32Bytes entrySize ++ (le32Bytes ecrc ++
      List.replicate (t.sectorSize - headerLength) 0)))))) from by
    simp [Table.headerTemplate, List.append_assoc]]
  rw [le64Get_at _ _ 48 (by simp [le64Bytes_length, le32Bytes_length]), le64Get_le64Bytes]

/-- The header template's disk GUID field (offset 56). -/
theorem headerTemplate_guid (t : Table) (ecrc : Nat) (hg : 16 ≤ t.diskGUID.length) :
    getBytes (t.headerTemplate ecrc) 56 16 = uuidToGUID t.diskGUID := by
  rw [show t.headerTemplate ecrc = (le64Bytes gptHeaderSignature ++ le32Bytes 0x00010000 ++
      le32Bytes headerLength ++ le32Bytes 0 ++ le32Bytes 0 ++ le64Bytes 0 ++ le64Bytes 0 ++
      le64Bytes t.firstUsableLBA ++ le64Bytes t.lastUsableLBA) ++
      (uuidToGUID t.diskGUID ++ (le64Bytes 0 ++
      (le32Bytes numEntries ++ (le32Bytes entrySize ++ (le32Bytes ecrc ++
      List.replicate (t.sectorSize - headerLength) 0))))) from by
    simp [Table.headerTemplate, List.append_assoc]]
  rw [getBytes_at _ _ 56 16 (by simp [le64Bytes_length, le32Bytes_length]),
    List.take_left' (uuidToGUID_length t.diskGUID hg)]

/-- The header template's num_partition_entries field (offset 80). -/
theorem headerTemplate_num (t : Table) (ecrc : Nat) (hg : 16 ≤ t.diskGUID.length) :
    le32Get (t.headerTemplate ecrc) 80 = 128 := by
  rw [show t.headerTemplate ecrc = (le64Bytes gptHeaderSignature ++ le32Bytes 0x00010000 ++
      le32Bytes headerLength ++ le32Bytes 0 ++ le32Bytes 0 ++ le64Bytes 0 ++ le64Bytes 0 ++
      le64Bytes t.firstUsableLBA ++ le64Bytes t.lastUsableLBA ++ uuidToGUID t.diskGUID ++
      le64Bytes 0) ++
      (le32Bytes numEntries ++ (le32Bytes entrySize ++ (le32Bytes ecrc ++
      List.replicate (t.sectorSize - headerLength) 0))) from by
    simp [Table.headerTemplate, List.append_assoc]]
  rw [le32Get_at _ _ 80
    (by simp [le64Bytes_length, le32Bytes_length, uuidToGUID_length t.diskGUID hg]),
    le32Get_le32Bytes]
  norm_num [numEntries]

/-- The header template's sizeof_partition_entry field (offset 84). -/
theorem headerTemplate_esize (t : Table) (ecrc : Nat) (hg : 16 ≤ t.diskGUID.length) :
    le32Get (t.headerTemplate ecrc) 84 = 128 := by
  rw [show t.headerTemplate ecrc = (le64Bytes gptHeaderSignature ++ le32Bytes 0x00010000 ++
      le32Bytes headerLength ++ le32Bytes 0 ++ le32Bytes 0 ++ le64Bytes 0 ++ le64Bytes 0 ++
      le64Bytes t.firstUsableLBA ++ le64Bytes t.lastUsableLBA ++ uuidToGUID t.diskGUID ++
      le64Bytes 0 ++ le32Bytes numEntries) ++
      (le32Bytes entrySize ++ (le32Bytes ecrc ++
      List.replicate (t.sectorSize - headerLength) 0)) from by
    simp [Table.headerTemplate, List.append_assoc]]
  rw [le32Get_at _ _ 84
    (by simp [le64Bytes_length, le32Bytes_length, uuidToGUID_length t.diskGUID hg]),
    le32Get_le32Bytes]
  norm_num [entrySize]

/-- The header template's partition_entry_array_crc32 field (offset 88). -/
theorem headerTemplate_ecrc (t : Table) (ecrc : Nat) (hg : 16 ≤ t.diskGUID.length) :
    le32Get (t.headerTemplate ecrc) 88 = ecrc % 2 ^ 32 := by
  rw [show t.headerTemplate ecrc = (le64Bytes gptHeaderSignature ++ le32Bytes 0x00010000 ++
      le32Bytes headerLength ++ le32Bytes 0 ++ le32Bytes 0 ++ le64Bytes 0 ++ le64Bytes 0 ++
      le64Bytes t.firstUsableLBA ++ le64Bytes t.lastUsableLBA ++ uuidToGUID t.diskGUID ++
      le64Bytes 0 ++ le32Bytes numEntries ++ le32Bytes entrySize) ++
      (le32Bytes ecrc ++ List.replicate (t.sectorSize - headerLength) 0) from by
    simp [Table.headerTemplate, List.append_assoc]]
  rw [le32Get_at _ _ 88
    (by simp [le64Bytes_length, le32Bytes_length, uuidToGUID_length t.diskGUID hg]),
    le32Get_le32Bytes]

/-- All the field reads `ReadHeader` performs on a finalized header copy. -/
theorem finalizeHeader_fields (t : Table) (ecrc myL altL pelL : Nat)
    (hss : 92 ≤ t.sectorSize) (hg : t.diskGUID.length = 16) :
    (finalizeHeader (t.headerTemplate ecrc) myL altL pelL).length = t.sectorSize ∧
    le64Get (finalizeHeader (t.headerTemplate ecrc) myL altL pelL) 0 = gptHeaderSignature ∧
    le32Get (finalizeHeader (t.headerTemplate ecrc) myL altL pelL) 12 = 92 ∧
    le32Get (finalizeHeader (t.headerTemplate ecrc) myL altL pelL) 16 =
      headerChecksum (finalizeHeader (t.headerTemplate ecrc) myL altL pelL) ∧
    le64Get (finalizeHeader (t.headerTemplate ecrc) myL altL pelL) 24 = myL % 2 ^ 64 ∧
    le64Get (finalizeHeader (t.headerTemplate ecrc) myL altL pelL) 40 =
      t.firstUsableLBA % 2 ^ 64 ∧
    le64Get (finalizeHeader (t.headerTemplate ecrc) myL altL pelL) 48 =
      t.lastUsableLBA % 2 ^ 64 ∧
    getBytes (finalizeHeader (t.headerTemplate ecrc) myL altL pelL) 56 16 =
      uuidToGUID t.diskGUID ∧
    le64Get (finalizeHeader (t.headerTemplate ecrc) myL altL pelL) 72 = pelL % 2 ^ 64 ∧
    le32Get (finalizeHeader (t.headerTemplate ecrc) myL altL pelL) 80 = 128 ∧
    le32Get (finalizeHeader (t.headerTemplate ecrc) myL altL pelL) 84 = 128 ∧
    le32Get (finalizeHeader (t.headerTemplate ecrc) myL altL pelL) 88 = ecrc % 2 ^ 32 := by
  have hT : (t.headerTemplate ecrc).length = t.sectorSize :=
    headerTemplate_length t ecrc hss (by omega)
  have h1len : (putBytesAt (t.headerTemplate ecrc) 24 (le64Bytes myL)).length =
      t.sectorSize := by
    rw [putBytesAt_length _ _ _ (by rw [le64Bytes_length]; omega)]
    exact hT
  have h2len : (putBytesAt (putBytesAt (t.headerTemplate ecrc) 24 (le64Bytes myL)) 32
      (le64Bytes altL)).length = t.sectorSize := by
    rw [putBytesAt_length _ _ _ (by rw [le64Bytes_length]; omega)]
    exact h1len
  have h3len : (putBytesAt (putBytesAt (putBytesAt (t.headerTemplate ecrc) 24
      (le64Bytes myL)) 32 (le64Bytes altL)) 72 (le64Bytes pelL)).length = t.sectorSize := by
    rw [putBytesAt_length _ _ _ (by rw [le64Bytes_length]; omega)]
    exact h2len
  have hc32 : headerChecksum (putBytesAt (putBytesAt (putBytesAt (t.headerTemplate ecrc) 24
      (le64Bytes myL)) 32 (le64Bytes altL)) 72 (le64Bytes pelL)) < 2 ^ 32 := by
    unfold headerChecksum
    exact crc32_lt _
  unfold finalizeHeader
  dsimp only
  refine ⟨?_, ?_, ?_, ?_, ?_, ?_, ?_, ?_, ?_, ?_, ?_, ?_⟩
  · rw [putBytesAt_length _ _ _ (by rw [le32Bytes_length]; omega)]
    exact h3len
  · rw [le64Get_putBytesAt_out _ _ 16 0 (by omega) (by omega),
      le64Get_putBytesAt_out _ _ 72 0 (by omega) (by omega),
      le64Get_putBytesAt_out _ _ 32 0 (by omega) (by omega),
      le64Get_putBytesAt_out _ _ 24 0 (by omega) (by omega),
      headerTemplate_sig]
  · rw [le32Get_putBytesAt_out _ _ 16 12 (by omega) (by omega),
      le32Get_putBytesAt_out _ _ 72 12 (by omega) (by omega),
      le32Get_putBytesAt_out _ _ 32 12 (by omega) (by omega),
      le32Get_putBytesAt_out _ _ 24 12 (by omega) (by omega),
      headerTemplate_hsize]
  · rw [headerChecksum_putCrc _ _ (by omega)]
    rw [le32Get_putBytesAt_self _ _ _ (by omega)]
    exact Nat.mod_eq_of_lt hc32
  · rw [le64Get_putBytesAt_out _ _ 16 24 (by omega) (by rw [le32Bytes_length]; omega),
      le64Get_putBytesAt_out _ _ 72 24 (by omega) (by omega),
      le64Get_putBytesAt_out _ _ 32 24 (by omega) (by omega),
      le64Get_putBytesAt_self _ _ _ (by omega)]
  · rw [le64Get_putBytesAt_out _ _ 16 40 (by omega) (by rw [le32Bytes_length]; omega),
      le64Get_putBytesAt_out _ _ 72 40 (by omega) (by omega),
      le64Get_putBytesAt_out _ _ 32 40 (by omega) (by rw [le64Bytes_length]; omega),
      le64Get_putBytesAt_out _ _ 24 40 (by omega) (by rw [le64Bytes_length]; omega),
      headerTemplate_fu]
  · rw [le64Get_putBytesAt_out _ _ 16 48 (by omega) (by rw [le32Bytes_length]; omega),
      le64Get_putBytesAt_out _ _ 72 48 (by omega) (by omega),
      le64Get_putBytesAt_out _ _ 32 48 (by omega) (by rw [le64Bytes_length]; omega),
      le64Get_putBytesAt_out _ _ 24 48 (by omega) (by rw [le64Bytes_length]; omega),
      headerTemplate_lu]
  · rw [getBytes_putBytesAt_out _ _ 16 56 16 (by rw [le32Bytes_length]; omega) (by omega)
        (by rw [le32Bytes_length]; omega),
      getBytes_putBytesAt_out _ _ 72 56 16 (by rw [le64Bytes_length]; omega) (by omega)
        (by rw [le64Bytes_length]; omega),
      getBytes_putBytesAt_out _ _ 32 56 16 (by rw [le64Bytes_length]; omega) (by omega)
        (by rw [le64Bytes_length]; omega),
      getBytes_putBytesAt_out _ _ 24 56 16 (by rw [le64Bytes_length]; omega) (by omega)
        (by rw [le64Bytes_length]; omega),
      headerTemplate_guid t ecrc (by omega)]
  · rw [le64Get_putBytesAt_out _ _ 16 72 (by omega) (by rw [le32Bytes_length]; omega),
      le64Get_putBytesAt_self _ _ _ (by omega)]
  · rw [le32Get_putBytesAt_out _ _ 16 80 (by omega) (by rw [le32Bytes_length]; omega),
      le32Get_putBytesAt_out _ _ 72 80 (by omega) (by rw [le64Bytes_length]; omega),
      le32Get_putBytesAt_out _ _ 32 80 (by omega) (by rw [le64Bytes_length]; omega),
      le32Get_putBytesAt_out _ _ 24 80 (by omega) (by rw [le64Bytes_length]; omega),
      headerTemplate_num t ecrc (by omega)]
  · rw [le32Get_putBytesAt_out _ _ 16 84 (by omega) (by rw [le32Bytes_length]; omega),
      le32Get_putBytesAt_out _ _ 72 84 (by omega) (by rw [le64Bytes_length]; omega),
      le32Get_putBytesAt_out _ _ 32 84 (by omega) (by rw [le64Bytes_length]; omega),
      le32Get_putBytesAt_out _ _ 24 84 (by omega) (by rw [le64Bytes_length]; omega),
      headerTemplate_esize t ecrc (by omega)]
  · rw [le32Get_putBytesAt_out _ _ 16 88 (by omega) (by rw [le32Bytes_length]; omega),
      le32Get_putBytesAt_out _ _ 72 88 (by omega) (by rw [le64Bytes_length]; omega),
      le32Get_putBytesAt_out _ _ 32 88 (by omega) (by rw [le64Bytes_length]; omega),
      le32Get_putBytesAt_out _ _ 24 88 (by omega) (by rw [le64Bytes_length]; omega),
      headerTemplate_ecrc t ecrc (by omega)]

/-- `ReadHeader` accepts a header whose field reads all check out, and
returns the 128 entry slices. -/
theorem readHeader_eval (dv : Nat → Nat) (ss lba lastLBA fu lu pel : Nat)
    (H E : List Nat)
    (hbuf : readAt dv (lba * ss) ss = H)
    (hsig : le64Get H 0 = gptHeaderSignature)
    (hhs : le32Get H 12 = 92) (hssb : 92 ≤ ss)
    (hcrc : le32Get H 16 = headerChecksum H)
    (hmy : le64Get H 24 = lba)
    (hfu : le64Get H 40 = fu) (hlu : le64Get H 48 = lu)
    (hful : fu ≤ lu) (hlul : lu ≤ lastLBA)
    (houtside : ¬(fu < lba ∧ lba < lu))
    (hpel : le64Get H 72 = pel)
    (hnum : le32Get H 80 = 128) (hsz : le32Get H 84 = 128)
    (hecrc : le32Get H 88 = crc32 E)
    (hEread : readAt dv (pel * ss) 16384 = E) :
    readHeader dv ss lba lastLBA =
      some (H, (List.range 128).map fun i => getBytes E (i * 128) 128) := by
  unfold readHeader
  dsimp only
  rw [hbuf, hsig, hhs, hcrc, hmy, hfu, hlu, hpel, hnum, hsz, hecrc]
  rw [if_neg (by simp), if_neg (by simp only [headerLength]; omega), if_neg (by simp),
    if_neg (by simp), if_neg (by omega), if_neg houtside,
    if_neg (by simp [entrySize]), if_neg (by simp [numEntries])]
  rw [show 128 * entrySize = 16384 from rfl, hEread]
  rw [if_neg (by simp)]
  rw [show entrySize = 128 from rfl]

/-- `readAt_writeAt_self` with the length given as a hypothesis. -/
theorem readAt_writeAt_self2 (d : Nat → Nat) (off len : Nat) (data : List Nat)
    (h : data.length = len) : readAt (writeAt d off data) off len = data := by
  rw [← h]
  exact readAt_writeAt_self d off data

/-- Writing the protective MBR only touches the first 512 bytes. -/
theorem readAt_writePMBR (t : Table) (d : Nat → Nat) (off len : Nat) (h : 512 ≤ off) :
    readAt (t.writePMBR d) off len = readAt d off len := by
  unfold Table.writePMBR
  dsimp only
  refine readAt_writeAt_disjoint _ _ _ _ _ (Or.inr ?_)
  rw [putBytesAt_length]
  · rw [List.length_set, List.length_set, readAt_length]
    omega
  · rw [List.length_set, List.length_set, readAt_length]
    simp only [List.length_append, List.length_cons, List.length_nil, le32Bytes_length]
    omega

/-- Layout of a full `Write` followed by `Read`: the write succeeds and
`Read` returns the same geometry with the decoded round-trip slots. -/
theorem writeDisk_read_layout (dev : Device) (opts : Options) (g : List Nat)
    (lastLBA : Nat) (es : List (Option Partition)) (t : Table)
    (ht : t = { tableInit dev opts g lastLBA with entries := es })
    (hlast : lastLBAOf dev = some lastLBA)
    (hss : 512 ≤ dev.sectorSize)
    (h33 : 33 ≤ lastLBA)
    (h64 : lastLBA < 2 ^ 64)
    (hful : t.firstUsableLBA ≤ t.lastUsableLBA)
    (hlen : es.length ≤ 128)
    (hslots : ∀ e, some e ∈ es → e.typeGUID.length = 16 ∧ e.partGUID.length = 16 ∧
      e.name.length ≤ 36)
    (hg16 : g.length = 16) :
    ∃ w, t.writeDisk dev = some (.ok w) ∧
      Table.read { dev with bytes := w } opts =
        .ok { t with entries := truncAfterLastFilled ((List.range 128).map fun i =>
          decodeEntry t.firstUsableLBA t.lastUsableLBA
            (serializeSlot (es.getD i none))) } := by
  subst ht
  dsimp only [tableInit] at hful
  have hss0 : 0 < dev.sectorSize := by omega
  have hL16 : 16384 ≤ lbasForEntries dev.sectorSize * dev.sectorSize := by
    have h1 := le_alignUpTo (entrySize * numEntries) dev.sectorSize hss0
    unfold alignUpTo at h1
    unfold lbasForEntries
    have h2 : entrySize * numEntries = 16384 := by norm_num [entrySize, numEntries]
    rw [h2] at h1 ⊢
    exact h1
  have hm2pp : 2 * dev.sectorSize ≤ (1 + 1 + opts.skipLBAs) * dev.sectorSize :=
    Nat.mul_le_mul_right _ (by omega)
  have hm2last : 2 * dev.sectorSize ≤ lastLBA * dev.sectorSize :=
    Nat.mul_le_mul_right _ (by omega)
  have hm2sp : 2 * dev.sectorSize ≤
      (lastLBA - lbasForEntries dev.sectorSize) * dev.sectorSize :=
    Nat.mul_le_mul_right _ (by omega)
  have hsplit : (1 + 1 + opts.skipLBAs + lbasForEntries dev.sectorSize) * dev.sectorSize =
      (1 + 1 + opts.skipLBAs) * dev.sectorSize +
        lbasForEntries dev.sectorSize * dev.sectorSize :=
    Nat.add_mul _ _ _
  have hmfusp : (1 + 1 + opts.skipLBAs + lbasForEntries dev.sectorSize) * dev.sectorSize ≤
      (lastLBA - lbasForEntries dev.sectorSize) * dev.sectorSize :=
    Nat.mul_le_mul_right _ (by omega)
  have hmsplast : (lastLBA - lbasForEntries dev.sectorSize) * dev.sectorSize ≤
      lastLBA * dev.sectorSize :=
    Nat.mul_le_mul_right _ (by omega)
  have hbE : (1 + 1 + opts.skipLBAs) * dev.sectorSize + 16384 ≤
      (lastLBA - lbasForEntries dev.sectorSize) * dev.sectorSize := by omega
  have hw : ∀ i, (serializeSlot (es.getD i none)).length = 128 := by
    intro i
    cases hgi : es.getD i none with
    | none => simp [serializeSlot]
    | some e =>
      refine serializeSlot_length (some e) ?_
      intro e' he'
      injection he' with he'
      subst he'
      exact hslots e (mem_of_getD_some es i e hgi)
  have hany : es.any nameTooLong = false := by
    rw [List.any_eq_false]
    intro s hs
    cases s with
    | none => simp [nameTooLong]
    | some e =>
      have h36 := (hslots e hs).2.2
      simp only [nameTooLong, Bool.not_eq_true, decide_eq_false_iff_not, not_lt,
        encodeNameUnits_length]
      omega
  set E := Table.entriesArray { tableInit dev opts g lastLBA with entries := es } with hE
  set H1t := finalizeHeader
    (Table.headerTemplate { tableInit dev opts g lastLBA with entries := es } (crc32 E))
    1 lastLBA (1 + 1 + opts.skipLBAs) with hH1
  set H2t := finalizeHeader
    (Table.headerTemplate { tableInit dev opts g lastLBA with entries := es } (crc32 E))
    lastLBA 1 (lastLBA - lbasForEntries dev.sectorSize) with hH2
  set d4t := writeAt (writeAt (writeAt (writeAt dev.bytes (1 * dev.sectorSize) H1t)
    ((1 + 1 + opts.skipLBAs) * dev.sectorSize) E) (lastLBA * dev.sectorSize) H2t)
    ((lastLBA - lbasForEntries dev.sectorSize) * dev.sectorSize) E with hd4
  set W := if opts.skipPMBR = true then d4t else
    Table.writePMBR { tableInit dev opts g lastLBA with entries := es } d4t with hW
  have hElen : E.length = 16384 := by
    rw [hE]
    unfold Table.entriesArray
    dsimp only [tableInit]
    rw [flatMap_range_length _ 128 hw numEntries]
    norm_num [numEntries]
  have hF := finalizeHeader_fields { tableInit dev opts g lastLBA with entries := es }
    (crc32 E) 1 lastLBA (1 + 1 + opts.skipLBAs) (by dsimp only [tableInit]; omega)
    (by dsimp only [tableInit]; exact hg16)
  rw [← hH1] at hF
  obtain ⟨hH1len, hH1sig, hH1hs, hH1crc, hH1my, hH1fu, hH1lu, hH1guid, hH1pel, hH1num,
    hH1sz, hH1ec⟩ := hF
  dsimp only [tableInit] at hH1len hH1fu hH1lu hH1guid hH1pel
  norm_num at hH1my
  rw [Nat.mod_eq_of_lt (by omega)] at hH1fu
  rw [Nat.mod_eq_of_lt (by omega)] at hH1lu
  rw [Nat.mod_eq_of_lt (by omega)] at hH1pel
  rw [Nat.mod_eq_of_lt (crc32_lt E)] at hH1ec
  have hite : ∀ (d : Nat → Nat) (off len : Nat), 512 ≤ off →
      readAt (if opts.skipPMBR = true then d else
        Table.writePMBR { tableInit dev opts g lastLBA with entries := es } d) off len =
      readAt d off len := by
    intro d off len hoff
    split
    · rfl
    · exact readAt_writePMBR _ _ _ _ hoff
  have hb1 : readAt W (1 * dev.sectorSize) dev.sectorSize = H1t := by
    rw [hW, hite _ _ _ (by omega), hd4,
      readAt_writeAt_disjoint _ _ _ _ _ (Or.inl (by omega)),
      readAt_writeAt_disjoint _ _ _ _ _ (Or.inl (by omega)),
      readAt_writeAt_disjoint _ _ _ _ _ (Or.inl (by omega))]
    exact readAt_writeAt_self2 dev.bytes (1 * dev.sectorSize) dev.sectorSize H1t hH1len
  have hb2 : readAt W ((1 + 1 + opts.skipLBAs) * dev.sectorSize) 16384 = E := by
    rw [hW, hite _ _ _ (by omega), hd4,
      readAt_writeAt_disjoint _ _ _ _ _ (Or.inl (by omega)),
      readAt_writeAt_disjoint _ _ _ _ _ (Or.inl (by omega))]
    exact readAt_writeAt_self2 _ _ 16384 E hElen
  have hRH : readHeader W dev.sectorSize 1 lastLBA =
      some (H1t, (List.range 128).map fun i => getBytes E (i * 128) 128) :=
    readHeader_eval W dev.sectorSize 1 lastLBA
      (1 + 1 + opts.skipLBAs + lbasForEntries dev.sectorSize)
      (lastLBA - lbasForEntries dev.sectorSize - 1) (1 + 1 + opts.skipLBAs) H1t E
      hb1 hH1sig hH1hs (by omega) hH1crc hH1my hH1fu hH1lu (by omega) (by omega)
      (by omega) hH1pel hH1num hH1sz hH1ec hb2
  have hwd : Table.writeDisk { tableInit dev opts g lastLBA with entries := es } dev =
      some (.ok W) := by
    rw [hW, hd4, hH1, hH2, hE]
    unfold Table.writeDisk
    dsimp only [tableInit]
    rw [if_neg (by simp only [numEntries]; omega), if_neg (by simp [hany])]
  have hchunks : ∀ i, i < 128 → getBytes E (i * 128) 128 = serializeSlot (es.getD i none) := by
    intro i hi
    rw [hE]
    unfold Table.entriesArray
    dsimp only [tableInit]
    exact flatMap_range_chunk _ 128 hw numEntries i (by simpa [numEntries] using hi)
  have hparts : ∀ fu lu : Nat,
      ((List.range 128).map fun i => getBytes E (i * 128) 128).map (decodeEntry fu lu) =
        (List.range 128).map fun i =>
          decodeEntry fu lu (serializeSlot (es.getD i none)) := by
    intro fu lu
    rw [List.map_map]
    refine List.map_congr_left ?_
    intro i hi
    rw [List.mem_range] at hi
    dsimp only [Function.comp]
    rw [hchunks i hi]
  refine ⟨W, hwd, ?_⟩
  have hlb : lastLBAOf { dev with bytes := W } = some lastLBA := by
    unfold lastLBAOf at hlast ⊢
    exact hlast
  unfold Table.read
  rw [hlb]
  dsimp only
  rw [if_neg (by omega)]
  rw [hRH]
  dsimp only
  rw [hH1guid, guidToUUID_uuidToGUID g hg16]
  dsimp only [tableInit]
  rw [hparts]
  rfl

/-- C1 (amended): for a table with the geometry `Table.init` derives and at
most 128 entry slots whose allocated partitions lie in the usable window,
have 16-byte GUIDs with a non-zero type GUID, and names of at most 36
UTF-16 units without a trailing NUL, `Write` succeeds and `Read` on the
written device returns a table with the same geometry and disk GUID whose
partition list (the non-vacant entries, in order) equals the original,
field for field. -/
theorem gpt_write_read_roundtrip (dev : Device) (opts : Options) (g : List Nat)
    (lastLBA : Nat) (es : List (Option Partition)) (t : Table)
    (ht : t = { tableInit dev opts g lastLBA with entries := es })
    (hlast : lastLBAOf dev = some lastLBA)
    (hss : 512 ≤ dev.sectorSize) (h33 : 33 ≤ lastLBA) (h64 : lastLBA < 2 ^ 64)
    (hful : t.firstUsableLBA ≤ t.lastUsableLBA)
    (hlen : es.length ≤ 128)
    (hok : ∀ e, some e ∈ es → SlotOK t.firstUsableLBA t.lastUsableLBA e)
    (hg16 : g.length = 16) :
    ∃ w t', t.writeDisk dev = some (.ok w) ∧
      Table.read { dev with bytes := w } opts = .ok t' ∧
      t'.entries.filterMap id = t.entries.filterMap id ∧
      t'.lastLBA = t.lastLBA ∧ t'.firstUsableLBA = t.firstUsableLBA ∧
      t'.lastUsableLBA = t.lastUsableLBA ∧ t'.diskGUID = t.diskGUID := by
  have hslots : ∀ e, some e ∈ es → e.typeGUID.length = 16 ∧ e.partGUID.length = 16 ∧
      e.name.length ≤ 36 := by
    intro e he
    obtain ⟨_, _, _, _, _, _, h7, h8, _, _, _, h12, _, _⟩ := hok e he
    exact ⟨h7, h8, h12⟩
  obtain ⟨w, hwd, hrd⟩ := writeDisk_read_layout dev opts g lastLBA es t ht hlast hss h33
    h64 hful hlen hslots hg16
  have hfu0 : 0 < t.firstUsableLBA := by
    rw [ht]
    dsimp only [tableInit]
    omega
  have hdec : ∀ i, decodeEntry t.firstUsableLBA t.lastUsableLBA
      (serializeSlot (es.getD i none)) = es.getD i none := by
    intro i
    refine decodeEntry_serializeSlot _ _ hfu0 _ ?_
    intro e he
    exact hok e (mem_of_getD_some es i e he)
  refine ⟨w, _, hwd, hrd, ?_, rfl, rfl, rfl, rfl⟩
  dsimp only
  rw [filterMap_truncAfterLastFilled]
  rw [List.map_congr_left fun i _ => hdec i]
  rw [map_range_getD_pad es 128 hlen, filterMap_pad]
  rw [ht]

set_option maxRecDepth 8000 in
/-- C1 witness: the round-trip theorem at the concrete 2 GiB device with
one allocated 1 MiB partition. -/
theorem gpt_write_read_roundtrip_witness :
    ∃ w t', Table.writeDisk tA1 devA = some (.ok w) ∧
      Table.read { devA with bytes := w } optsA = .ok t' ∧
      t'.entries.filterMap id = tA1.entries.filterMap id ∧
      t'.lastLBA = tA1.lastLBA ∧ t'.firstUsableLBA = tA1.firstUsableLBA ∧
      t'.lastUsableLBA = tA1.lastUsableLBA ∧ t'.diskGUID = tA1.diskGUID :=
  gpt_write_read_roundtrip devA optsA guidA 4194303 [some pA1] tA1 rfl (by decide)
    (by decide) (by decide) (by decide) (by decide) (by decide)
    (by intro e he
        rw [List.mem_singleton] at he
        injection he with he
        subst he
        decide)
    (by decide)

set_option maxRecDepth 8000 in
/-- C1 counterexample to the unamended claim: a partition whose type GUID
is all-zero satisfies every hypothesis the claim states (non-overlapping,
aligned, inside the usable window, short name), `Write` succeeds, but
`Read` returns an empty partition list — the entry is dropped, so the
partition lists differ. -/
theorem writeRead_drops_zero_type_guid :
    ∃ w t',
      Table.writeDisk { tableInit devA optsA guidA 4194303 with entries := [some pZ] }
        devA = some (.ok w) ∧
      Table.read { devA with bytes := w } optsA = .ok t' ∧
      t'.entries.filterMap id = [] ∧
      ({ tableInit devA optsA guidA 4194303 with entries := [some pZ] } :
        Table).entries.filterMap id = [pZ] := by
  obtain ⟨w, hwd, hrd⟩ := writeDisk_read_layout devA optsA guidA 4194303 [some pZ] _ rfl
    (by decide) (by decide) (by decide) (by decide) (by decide) (by decide)
    (by intro e he
        rw [List.mem_singleton] at he
        injection he with he
        subst he
        decide)
    (by decide)
  refine ⟨w, _, hwd, hrd, ?_, by decide⟩
  dsimp only
  rw [filterMap_truncAfterLastFilled]
  refine filterMap_id_nil _ ?_
  intro x hx
  rw [List.mem_map] at hx
  obtain ⟨i, hi, hxi⟩ := hx
  rw [List.mem_range] at hi
  rw [← hxi]
  cases i with
  | zero => decide
  | succ n =>
    rw [getD_of_len_le none [some pZ] (n + 1) (by simp)]
    decide

end BlockDev
